import Mathlib

/-!
Shallow embedding of the rewards apportionment and commitment engine from
shared/services/rewards/generator-impl-v9-v10-rolling.go (tree generator
ruleset v9/v10 with rolling-record support).

Conventions of the embedding:
* Go arbitrary-precision integers (math/big.Int) become Lean Int.
* big.Int.Div is Euclidean division, which for the positive divisors used
  throughout equals floor division: embedded as Int.ediv.  big.Int.Quo is
  truncated division: embedded as Int.tdiv.
* Node and minipool identifiers (20-byte addresses) become Nat; network
  layer ids (uint64) become Nat.
* Go maps that the code only reads or updates per key are embedded as
  association lists kept in insertion order; map iteration order for the
  final materialization of the rewards file lists is an explicit parameter.
* External collaborators (execution client, beacon client, rolling record
  scoring, node-weight computation) are either oracle function fields of
  the state or, where a claim depends on their behaviour, definitions
  modelled from the spec (marked in their doc comments).
* Fallible Go paths (returned errors) become Except String.
* The minipool performance file bookkeeping (JSON side artifact) and the
  header/time fields copied into it are not modelled; no claim refers to
  them.  Go panics (nil map entries, division by zero on an empty oDAO
  total) are not modelled: lookups take defaults and Int division by zero
  is total in Lean.
-/

/-- 1e18, the Wei fixed-point unit (1.0). -/
def oneEth : Int := 10 ^ 18

/-- 10e18, used as the cap of percentOfBorrowedEth in the bonus fee floor. -/
def tenEth : Int := 10 * 10 ^ 18

/-- 0.04 at 1e18 scale. -/
def pointOhFourEth : Int := 4 * 10 ^ 16

/-- 0.10 at 1e18 scale. -/
def pointOneEth : Int := 10 ^ 17

/-- 0.14 at 1e18 scale, the structural cap on a bonused minipool fee. -/
def fourteenPercentEth : Int := 14 * 10 ^ 16

/-- 32 ETH at 1e18 scale. -/
def thirtyTwoEth : Int := 32 * 10 ^ 18

/-- Per-node on-chain details used by the generator (NodeDetails fields it
reads: NodeAddress, RewardNetwork).  Unused fields are omitted. -/
structure NodeDetailsGo where
  nodeAddress : Nat
  rewardNetwork : Nat
deriving Repr, DecidableEq, Inhabited

/-- Per-minipool on-chain details used by the generator (MinipoolDetails
fields it reads: address, owning node, NodeFee, NodeDepositBalance,
PenaltyCount). -/
structure MinipoolDetailsGo where
  address : Nat
  nodeAddress : Nat
  nodeFee : Int
  nodeDepositBalance : Int
  penaltyCount : Int
deriving Repr, DecidableEq, Inhabited

/-- Oracle DAO member record (Address, JoinedTime as unix seconds). -/
structure OracleDaoMemberDetails where
  address : Nat
  joinedTime : Int
deriving Repr, DecidableEq, Inhabited

/-- The NetworkDetails numbers the generator reads. -/
structure NetworkDetailsGo where
  pendingRPLRewards : Int
  protocolDaoRewardsPercent : Int
  nodeOperatorRewardsPercent : Int
  trustedNodeOperatorRewardsPercent : Int
  intervalDurationSeconds : Int
  smoothingPoolBalance : Int
deriving Repr, DecidableEq, Inhabited

/-- Rolling-record per-minipool entry (MinipoolInfo).  attestationScore,
attestationCount and consensusIncome are inputs from the rolling record;
minipoolShare, minipoolBonus, totalFee and nodeOperatorBond are written by
the generator; eligibleForBonuses embeds the collaborator-supplied
IsEligibleForBonuses predicate as a precomputed flag. -/
structure MinipoolInfo where
  address : Nat
  nodeAddress : Nat
  attestationScore : Int
  attestationCount : Nat
  consensusIncome : Option Int
  eligibleForBonuses : Bool
  minipoolShare : Int
  minipoolBonus : Option Int
  totalFee : Int
  nodeOperatorBond : Int
deriving Repr, DecidableEq, Inhabited

/-- NodeSmoothingDetails: the per-node smoothing-pool accumulator.  The
opt-in and opt-out timestamps are set but never read by this generator and
are omitted. -/
structure NodeSmoothingDetails where
  address : Nat
  isEligible : Bool
  minipools : List MinipoolInfo
  smoothingPoolEth : Int
  bonusEth : Int
  rewardsNetwork : Nat
deriving Repr, DecidableEq, Inhabited

/-- The read-only network state snapshot.  The list and numeric fields are
the on-chain data the generator iterates; rawNodeWeight and
percentOfBorrowedEthOf are oracle inputs standing for the external
computations CalculateNodeWeights draws on (stake and bond) and
GetEligibleBorrowedEth plus GetStakedRplValueInEthAndPercentOfBorrowedEth,
which live outside this repository slice. -/
structure NetworkState where
  nodeDetails : List NodeDetailsGo
  minipoolDetails : List MinipoolDetailsGo
  networkDetails : NetworkDetailsGo
  oracleDaoMemberDetails : List OracleDaoMemberDetails
  rawNodeWeight : Nat → Int
  percentOfBorrowedEthOf : Nat → Int

/-- The rolling attestation record: its start slot and the per-minipool
score entries it has accumulated for the interval. -/
structure RollingRecord where
  startSlot : Nat
  minipoolScores : List MinipoolInfo

/-- NodeDetailsByAddress map lookup.  The default is a device for call
sites whose key is known to be present; where the source dereferences a
possibly missing entry (the Oracle DAO loop), the miss is modelled as the
run-ending failure it is in the source. -/
def nodeDetailsByAddress (s : NetworkState) (addr : Nat) : NodeDetailsGo :=
  (s.nodeDetails.find? (fun nd => nd.nodeAddress = addr)).getD default

/-- MinipoolDetailsByAddress map lookup (total: missing keys give default). -/
def minipoolDetailsByAddress (s : NetworkState) (addr : Nat) : MinipoolDetailsGo :=
  (s.minipoolDetails.find? (fun mp => mp.address = addr)).getD default

/-- MinipoolDetailsByNode map lookup. -/
def minipoolDetailsByNode (s : NetworkState) (addr : Nat) : List MinipoolDetailsGo :=
  s.minipoolDetails.filter (fun mp => mp.nodeAddress = addr)

/-- getCheaters: a node is flagged when any of its minipools has
PenaltyCount at least 3 (fixed threshold); membership in the resulting set
is false for unlisted nodes, as for a Go map read. -/
def getCheaters (s : NetworkState) : Nat → Bool := fun addr =>
  (s.nodeDetails.any (fun nd => nd.nodeAddress = addr)) &&
    ((minipoolDetailsByNode s addr).any (fun mpd => decide (3 ≤ mpd.penaltyCount)))

/-- Modelled from the spec: NetworkState.CalculateNodeWeights is
implemented outside this repository slice.  Per the spec it returns the
per-node RPIP-30 weight map together with the total weight, where the
weight itself is an external stake-and-bond computation (abstracted here
as the snapshot's rawNodeWeight oracle) and a cheater node's collateral
eligibility weight contribution is excluded for the interval. -/
def NetworkState.calculateNodeWeights (s : NetworkState) : (Nat → Int) × Int :=
  let w : Nat → Int := fun addr => if getCheaters s addr then 0 else s.rawNodeWeight addr
  (w, (s.nodeDetails.map (fun nd => w nd.nodeAddress)).sum)

/-- Modelled from the spec: RollingRecord.GetScores is implemented outside
this repository slice.  Per the spec it returns the per-minipool
attestation scores, the total score and the total successful-attestation
count, with the passed cheater set's minipools excluded from scoring. -/
def RollingRecord.getScores (rr : RollingRecord) (cheaters : Nat → Bool) :
    List MinipoolInfo × Int × Nat :=
  let mps := rr.minipoolScores.filter (fun mp => !(cheaters mp.nodeAddress))
  (mps, (mps.map (fun mp => mp.attestationScore)).sum,
    (mps.map (fun mp => mp.attestationCount)).sum)

/-- One leaf of the rewards file: a node's reward entry. -/
structure NodeReward where
  network : Nat
  address : Nat
  collateralRpl : Int
  oracleDaoRpl : Int
  smoothingPoolEth : Int
deriving Repr, DecidableEq, Inhabited

/-- NewNodeReward: fresh entry with zeroed amounts. -/
def NodeReward.new (network addr : Nat) : NodeReward :=
  { network := network, address := addr, collateralRpl := 0, oracleDaoRpl := 0,
    smoothingPoolEth := 0 }

/-- One per-network aggregate entry of the rewards file. -/
structure NetworkReward where
  network : Nat
  collateralRpl : Int
  oracleDaoRpl : Int
  smoothingPoolEth : Int
deriving Repr, DecidableEq, Inhabited

/-- NewNetworkReward: fresh entry with zeroed amounts. -/
def NetworkReward.new (network : Nat) : NetworkReward :=
  { network := network, collateralRpl := 0, oracleDaoRpl := 0, smoothingPoolEth := 0 }

/-- The TotalRewards summary of the rewards file. -/
structure TotalRewards where
  protocolDaoRpl : Int
  totalCollateralRpl : Int
  totalOracleDaoRpl : Int
  totalSmoothingPoolEth : Int
  poolStakerSmoothingPoolEth : Int
  nodeOperatorSmoothingPoolEth : Int
  totalNodeWeight : Int
deriving Repr, DecidableEq, Inhabited

/-- The rewards file (SSZFile_v1 fields the claims are about). -/
structure RewardsFile where
  rulesetVersion : Nat
  index : Nat
  totalRewards : TotalRewards
  nodeRewardsList : List NodeReward
  networkRewardsList : List NetworkReward
deriving Repr, DecidableEq, Inhabited

/-- Association-list lookup for the embedded Go maps. -/
def alookup {β : Type} (l : List (Nat × β)) (k : Nat) : Option β :=
  match l with
  | [] => none
  | p :: rest => if p.1 = k then some p.2 else alookup rest k

/-- Association-list in-place update: rewrites the value at every entry
whose key is k, leaving other entries and the order untouched. -/
def aset {β : Type} (l : List (Nat × β)) (k : Nat) (v : β) : List (Nat × β) :=
  match l with
  | [] => []
  | p :: rest => (if p.1 = k then (k, v) else p) :: aset rest k v

/-- Sum of a projection over an association list's values. -/
def sumBy {β : Type} (f : β → Int) (l : List (Nat × β)) : Int :=
  (l.map (fun p => f p.2)).sum

/-- The keys of an association list are pairwise distinct. -/
def keysND {β : Type} (l : List (Nat × β)) : Prop :=
  (l.map Prod.fst).Nodup

/-- Canonical sort of a list by a Nat-valued key, ascending. -/
def sortByKey {α : Type} (key : α → Nat) (l : List α) : List α :=
  List.insertionSort (fun a b => key a ≤ key b) l

/-- The runtime state of one tree-generation run: the immutable inputs, the
provisioned parameters, and the mutable accumulator maps.  getNetworkEnabled
embeds the execution client network check and startHeaderFetch the outcome
of getBlocksAndTimesForInterval's external block and header fetches (its
time outputs are only copied into unmodelled file fields). -/
structure TreeGen where
  networkState : NetworkState
  rollingRecord : RollingRecord
  rewardsFile : RewardsFile
  epsilon : Int
  smoothingPoolBalance : Int
  snapshotBlockTime : Int
  getNetworkEnabled : Nat → Except String Bool
  startHeaderFetch : Except String Unit
  nodeRewards : List (Nat × NodeReward)
  networkRewards : List (Nat × NetworkReward)
  invalidNetworkNodes : List (Nat × Nat)
  validNetworkCache : List (Nat × Bool)
  nodeDetailsSP : List (Nat × NodeSmoothingDetails)
  bonusScalarRecorded : Option Int

/-- newTreeGeneratorImpl: the initial run state, with zeroed totals and
empty accumulator maps. -/
def newTreeGenerator (rulesetVersion index : Nat) (s : NetworkState) (rr : RollingRecord)
    (snapshotBlockTime : Int) (getNetworkEnabled : Nat → Except String Bool)
    (startHeaderFetch : Except String Unit) : TreeGen :=
  { networkState := s
    rollingRecord := rr
    rewardsFile :=
      { rulesetVersion := rulesetVersion, index := index
        totalRewards :=
          { protocolDaoRpl := 0, totalCollateralRpl := 0, totalOracleDaoRpl := 0
            totalSmoothingPoolEth := 0, poolStakerSmoothingPoolEth := 0
            nodeOperatorSmoothingPoolEth := 0, totalNodeWeight := 0 }
        nodeRewardsList := [], networkRewardsList := [] }
    epsilon := 0
    smoothingPoolBalance := 0
    snapshotBlockTime := snapshotBlockTime
    getNetworkEnabled := getNetworkEnabled
    startHeaderFetch := startHeaderFetch
    nodeRewards := []
    networkRewards := []
    invalidNetworkNodes := []
    validNetworkCache := []
    nodeDetailsSP := []
    bonusScalarRecorded := none }

/-- The provisioning done at the top of generateTree and of
approximateStakerShareOfSmoothingPool: seed the network validity cache with
network 0 and set epsilon to the larger of node count and minipool count. -/
def provision (g : TreeGen) : TreeGen :=
  let nodeCount := g.networkState.nodeDetails.length
  let minipoolCount := g.networkState.minipoolDetails.length
  { g with validNetworkCache := [(0, true)]
           epsilon := Int.ofNat (if minipoolCount < nodeCount then nodeCount else minipoolCount) }

/-- validateNetwork: consult the in-run cache, otherwise perform the single
external on-chain query, caching its boolean result; an external error
propagates. -/
def validateNetwork (g : TreeGen) (network : Nat) : Except String (Bool × TreeGen) :=
  match alookup g.validNetworkCache network with
  | some valid => Except.ok (valid, g)
  | none =>
    match g.getNetworkEnabled network with
    | Except.error e => Except.error e
    | Except.ok valid =>
      Except.ok (valid, { g with validNetworkCache := g.validNetworkCache ++ [(network, valid)] })

/-- The shared lazy-creation pattern for a node's reward entry: reuse the
existing entry, otherwise validate the destination network (redirecting to
network 0 and recording the node when invalid) and append a fresh entry. -/
def getOrCreateNodeReward (g : TreeGen) (addr network : Nat) :
    Except String (TreeGen × NodeReward) :=
  match alookup g.nodeRewards addr with
  | some nr => Except.ok (g, nr)
  | none =>
    match validateNetwork g network with
    | Except.error e => Except.error e
    | Except.ok (valid, g) =>
      let netAndG : Nat × TreeGen :=
        if valid then (network, g)
        else (0, { g with invalidNetworkNodes := aset (g.invalidNetworkNodes ++ [(addr, network)]) addr network })
      let nr := NodeReward.new netAndG.1 addr
      Except.ok ({ netAndG.2 with nodeRewards := netAndG.2.nodeRewards ++ [(addr, nr)] }, nr)

/-- The lazy-creation pattern for a network's aggregate entry. -/
def getOrCreateNetworkReward (g : TreeGen) (network : Nat) : TreeGen × NetworkReward :=
  match alookup g.networkRewards network with
  | some w => (g, w)
  | none =>
    let w := NetworkReward.new network
    ({ g with networkRewards := g.networkRewards ++ [(network, w)] }, w)

/-- A fallible fold over a list, mirroring a Go for loop whose body may
return an error. -/
def runList {α : Type} (step : TreeGen → α → Except String TreeGen) :
    TreeGen → List α → Except String TreeGen
  | g, [] => Except.ok g
  | g, a :: rest =>
    match step g a with
    | Except.error e => Except.error e
    | Except.ok g2 => runList step g2 rest

/-- calculateNodeRplRewards: a node's collateral RPL share, floor of
collateralRewards times nodeWeight over totalNodeWeight; a non-positive
weight earns exactly 0 (the source uses Quo, truncated division). -/
def calculateNodeRplRewards (collateralRewards nodeWeight totalNodeWeight : Int) : Int :=
  if nodeWeight ≤ 0 then 0
  else Int.tdiv (collateralRewards * nodeWeight) totalNodeWeight

/-- The shared tail of each per-node contribution: write the updated node
entry back, then get or lazily create the aggregate entry of the node
entry's destination network and bump it by the same amount. -/
def bumpNodeReward (g : TreeGen) (addr : Nat) (nr2 : NodeReward)
    (bump : NetworkReward → NetworkReward) : TreeGen :=
  let g2 : TreeGen := { g with nodeRewards := aset g.nodeRewards addr nr2 }
  let gw := getOrCreateNetworkReward g2 nr2.network
  { gw.1 with networkRewards := aset gw.1.networkRewards nr2.network (bump gw.2) }

/-- The body of the per-node collateral loop of calculateRplRewards. -/
def collateralStep (totalNodeRewards totalNodeWeight : Int) (nodeWeights : Nat → Int)
    (g : TreeGen) (nd : NodeDetailsGo) : Except String TreeGen :=
  let nodeRplRewards :=
    calculateNodeRplRewards totalNodeRewards (nodeWeights nd.nodeAddress) totalNodeWeight
  if 0 < nodeRplRewards then
    match getOrCreateNodeReward g nd.nodeAddress nd.rewardNetwork with
    | Except.error e => Except.error e
    | Except.ok gnr =>
      Except.ok (bumpNodeReward gnr.1 nd.nodeAddress
        { gnr.2 with collateralRpl := gnr.2.collateralRpl + nodeRplRewards }
        (fun w => { w with collateralRpl := w.collateralRpl + nodeRplRewards }))
  else Except.ok g

/-- The collateral (node-operator RPL) half of calculateRplRewards: when
total node weight is positive, distribute per weight, sanity-check the
summed total against epsilon, record it, and return the pending amount
minus the actual total as the running treasury share; when no node has
weight, add the whole collateral budget to the treasury share instead. -/
def rplCollateralPhase (g : TreeGen) (pendingRewards pDaoRewards totalNodeRewards : Int) :
    Except String (TreeGen × Int) :=
  let wt := g.networkState.calculateNodeWeights
  if 0 < wt.2 then
    let g := { g with rewardsFile.totalRewards.totalNodeWeight := wt.2 }
    match runList (collateralStep totalNodeRewards wt.2 wt.1) g g.networkState.nodeDetails with
    | Except.error e => Except.error e
    | Except.ok g2 =>
      let totalCalculatedNodeRewards := sumBy (fun w => w.collateralRpl) g2.networkRewards
      let delta := abs (totalNodeRewards - totalCalculatedNodeRewards)
      if g2.epsilon < delta then
        Except.error "error calculating collateral RPL: error was too large"
      else
        let g2 := { g2 with rewardsFile.totalRewards.totalCollateralRpl := totalCalculatedNodeRewards }
        Except.ok (g2, pendingRewards - totalCalculatedNodeRewards)
  else
    Except.ok (g, pDaoRewards + totalNodeRewards)

/-- An oDAO member's time-weighted participation: the interval duration,
clipped to the time between the member joining and the snapshot block. -/
def odaoParticipationTime (intervalDurationSeconds snapshotBlockTime : Int)
    (details : OracleDaoMemberDetails) : Int :=
  let eligibleDuration := snapshotBlockTime - details.joinedTime
  if eligibleDuration < intervalDurationSeconds then eligibleDuration
  else intervalDurationSeconds

/-- A member's oDAO reward: floor of participation time times the total
oDAO share over the total participation time. -/
def odaoRewardAmount (totalODaoRewards totalODaoNodeTime intervalDurationSeconds
    snapshotBlockTime : Int) (details : OracleDaoMemberDetails) : Int :=
  Int.ediv (odaoParticipationTime intervalDurationSeconds snapshotBlockTime details *
    totalODaoRewards) totalODaoNodeTime

/-- The body of the per-member Oracle DAO loop of calculateRplRewards; note
the entry is created whether or not the member's computed reward is zero.
A member absent from the node-details snapshot makes the source dereference
the missing NodeDetailsByAddress entry and crash; the crash is modelled as
a run-ending error. -/
def odaoStep (totalODaoRewards totalODaoNodeTime intervalDurationSeconds snapshotBlockTime : Int)
    (g : TreeGen) (details : OracleDaoMemberDetails) : Except String TreeGen :=
  match g.networkState.nodeDetails.find? (fun nd => nd.nodeAddress = details.address) with
  | none => Except.error "node details missing for Oracle DAO member"
  | some nd =>
    let individualOdaoRewards := odaoRewardAmount totalODaoRewards totalODaoNodeTime
      intervalDurationSeconds snapshotBlockTime details
    match getOrCreateNodeReward g details.address nd.rewardNetwork with
    | Except.error e => Except.error e
    | Except.ok gnr =>
      Except.ok (bumpNodeReward gnr.1 details.address
        { gnr.2 with oracleDaoRpl := gnr.2.oracleDaoRpl + individualOdaoRewards }
        (fun w => { w with oracleDaoRpl := w.oracleDaoRpl + individualOdaoRewards }))

/-- The Oracle DAO half of calculateRplRewards: apportion the trusted-node
share by time-weighted participation, sanity-check the total, record it,
and record the treasury share as the running amount minus the actual oDAO
total. -/
def rplOdaoPhase (g : TreeGen) (pendingRewards pDaoRewards : Int) : Except String TreeGen :=
  let oDaoPercent := g.networkState.networkDetails.trustedNodeOperatorRewardsPercent
  let totalODaoRewards := Int.ediv (pendingRewards * oDaoPercent) oneEth
  let oDaoDetails := g.networkState.oracleDaoMemberDetails
  let intervalDurationSeconds := g.networkState.networkDetails.intervalDurationSeconds
  let totalODaoNodeTime :=
    (oDaoDetails.map (odaoParticipationTime intervalDurationSeconds g.snapshotBlockTime)).sum
  match runList (odaoStep totalODaoRewards totalODaoNodeTime intervalDurationSeconds
      g.snapshotBlockTime) g oDaoDetails with
  | Except.error e => Except.error e
  | Except.ok g2 =>
    let totalCalculatedOdaoRewards := sumBy (fun w => w.oracleDaoRpl) g2.networkRewards
    let delta := abs (totalODaoRewards - totalCalculatedOdaoRewards)
    if g2.epsilon < delta then
      Except.error "error calculating ODao RPL: error was too large"
    else
      let g2 := { g2 with rewardsFile.totalRewards.totalOracleDaoRpl := totalCalculatedOdaoRewards }
      Except.ok { g2 with rewardsFile.totalRewards.protocolDaoRpl :=
        pDaoRewards - totalCalculatedOdaoRewards }

/-- calculateRplRewards: fail on a zero pending amount, compute the
expected treasury and collateral budgets by fixed-point percentage, then
run the collateral and Oracle DAO allocations. -/
def calculateRplRewards (g : TreeGen) : Except String TreeGen :=
  let pendingRewards := g.networkState.networkDetails.pendingRPLRewards
  if pendingRewards = 0 then
    Except.error "there are no pending RPL rewards, so this interval cannot be used for rewards submission"
  else
    let pDaoPercent := g.networkState.networkDetails.protocolDaoRewardsPercent
    let pDaoRewards := Int.ediv (pendingRewards * pDaoPercent) oneEth
    let nodeOpPercent := g.networkState.networkDetails.nodeOperatorRewardsPercent
    let totalNodeRewards := Int.ediv (pendingRewards * nodeOpPercent) oneEth
    match rplCollateralPhase g pendingRewards pDaoRewards totalNodeRewards with
    | Except.error e => Except.error e
    | Except.ok (g2, pDao2) => rplOdaoPhase g2 pendingRewards pDao2

/-- The body of the node-details building loop of calculateNodeRewards:
group each scored minipool under its owning node (creating the node's
smoothing accumulator on first sight, ineligible when the node is a
cheater), record the minipool's bond and its base ETH share, floor of the
node-operator share times its score over the total score, and add that
share to the node's running total. -/
def buildStep (s : NetworkState) (cheaters : Nat → Bool) (totalNodeOpShare totalScore : Int)
    (acc : List (Nat × NodeSmoothingDetails)) (mp : MinipoolInfo) :
    List (Nat × NodeSmoothingDetails) :=
  let nnd := nodeDetailsByAddress s mp.nodeAddress
  let nmd := minipoolDetailsByAddress s mp.address
  let creation : List (Nat × NodeSmoothingDetails) × NodeSmoothingDetails :=
    match alookup acc mp.nodeAddress with
    | some nodeInfo => (acc, nodeInfo)
    | none =>
      let nodeInfo : NodeSmoothingDetails :=
        { address := nnd.nodeAddress, isEligible := !(cheaters mp.nodeAddress)
          minipools := [], smoothingPoolEth := 0, bonusEth := 0
          rewardsNetwork := nnd.rewardNetwork }
      (acc ++ [(mp.nodeAddress, nodeInfo)], nodeInfo)
  let mp2 := { mp with nodeOperatorBond := nmd.nodeDepositBalance }
  let minipoolEth := Int.ediv (totalNodeOpShare * mp2.attestationScore) totalScore
  let mp3 := { mp2 with minipoolShare := minipoolEth }
  let nodeInfo := creation.2
  let nodeInfo2 :=
    { nodeInfo with minipools := nodeInfo.minipools ++ [mp3],
                    smoothingPoolEth := nodeInfo.smoothingPoolEth + minipoolEth }
  aset creation.1 mp.nodeAddress nodeInfo2

/-- The node-details map built from the scored minipool list. -/
def buildNodeDetails (s : NetworkState) (cheaters : Nat → Bool)
    (totalNodeOpShare totalScore : Int) (mps : List MinipoolInfo) :
    List (Nat × NodeSmoothingDetails) :=
  mps.foldl (buildStep s cheaters totalNodeOpShare totalScore) []

/-- The per-minipool body of calculateNodeBonuses: compute the dynamic fee
floor 0.10 plus 0.04 times the capped percent of borrowed stake over 10,
skip the minipool (clearing its bonus fields) when it is not eligible or
its fee already meets the floor, otherwise raise the effective fee to the
floor, abort if it exceeds the 14 percent cap, and compute the bonus as the
floored share of consensus income (clamped at zero when negative).  Returns
the updated minipool and its bonus contribution. -/
def calcMinipoolBonus (s : NetworkState) (percentOfBorrowedEth : Int) (mp : MinipoolInfo) :
    Except String (MinipoolInfo × Int) :=
  let mpi := minipoolDetailsByAddress s mp.address
  let fee := mpi.nodeFee
  if !mp.eligibleForBonuses then
    Except.ok ({ mp with minipoolBonus := none, consensusIncome := none }, 0)
  else
    let minPob := if tenEth ≤ percentOfBorrowedEth then tenEth else percentOfBorrowedEth
    let feeWithBonus := Int.ediv (minPob * pointOhFourEth) tenEth + pointOneEth
    if feeWithBonus ≤ fee then
      Except.ok ({ mp with minipoolBonus := none, consensusIncome := none }, 0)
    else if fourteenPercentEth < feeWithBonus then
      Except.error "minipool has a fee greater than the maximum allowed of 14 percent"
    else
      let bonusFee := feeWithBonus - mpi.nodeFee
      let consensusIncome := mp.consensusIncome.getD 0
      let bonusShare := Int.ediv (bonusFee * (thirtyTwoEth - mpi.nodeDepositBalance)) thirtyTwoEth
      let minipoolBonus0 := Int.ediv (consensusIncome * bonusShare) oneEth
      let minipoolBonus := if minipoolBonus0 < 0 then 0 else minipoolBonus0
      Except.ok ({ mp with totalFee := feeWithBonus, minipoolBonus := some minipoolBonus }, minipoolBonus)

/-- Fallible fold over a node's minipools accumulating the updated list and
the node's bonus total. -/
def bonusMinipoolsLoop (s : NetworkState) (percentOfBorrowedEth : Int) :
    List MinipoolInfo → Except String (List MinipoolInfo × Int)
  | [] => Except.ok ([], 0)
  | mp :: rest =>
    match calcMinipoolBonus s percentOfBorrowedEth mp with
    | Except.error e => Except.error e
    | Except.ok (mp2, b) =>
      match bonusMinipoolsLoop s percentOfBorrowedEth rest with
      | Except.error e => Except.error e
      | Except.ok (rest2, bs) => Except.ok (mp2 :: rest2, b + bs)

/-- The per-node body of calculateNodeBonuses: an ineligible (cheater) node
is skipped wholesale; otherwise its minipools are processed with the node's
percent of borrowed stake, and the node's bonus total accumulates. -/
def bonusNode (s : NetworkState) (nsd : NodeSmoothingDetails) :
    Except String (NodeSmoothingDetails × Int) :=
  if !nsd.isEligible then Except.ok (nsd, 0)
  else
    let pob := s.percentOfBorrowedEthOf nsd.address
    match bonusMinipoolsLoop s pob nsd.minipools with
    | Except.error e => Except.error e
    | Except.ok (mps2, total) =>
      Except.ok ({ nsd with minipools := mps2, bonusEth := nsd.bonusEth + total }, total)

/-- calculateNodeBonuses: run the bonus computation over every node in the
smoothing details map, returning the updated map and the total consensus
bonus. -/
def calculateNodeBonuses (s : NetworkState) :
    List (Nat × NodeSmoothingDetails) →
    Except String (List (Nat × NodeSmoothingDetails) × Int)
  | [] => Except.ok ([], 0)
  | (k, nsd) :: rest =>
    match bonusNode s nsd with
    | Except.error e => Except.error e
    | Except.ok (nsd2, b) =>
      match calculateNodeBonuses s rest with
      | Except.error e => Except.error e
      | Except.ok (rest2, bs) => Except.ok ((k, nsd2) :: rest2, b + bs)

/-- The bonus downscaling applied when the remaining smoothing-pool balance
cannot cover the total consensus bonus: every node's and minipool's bonus
is recomputed as the floor of the original bonus times the remaining
balance over the total consensus bonus (the direct ratio). -/
def scaleBonuses (remainingBalance totalConsensusBonus : Int)
    (l : List (Nat × NodeSmoothingDetails)) : List (Nat × NodeSmoothingDetails) :=
  l.map (fun p =>
    (p.1, { p.2 with
      bonusEth := Int.ediv (p.2.bonusEth * remainingBalance) totalConsensusBonus
      minipools := p.2.minipools.map (fun mp =>
        { mp with minipoolBonus := mp.minipoolBonus.map (fun b =>
            Int.ediv (b * remainingBalance) totalConsensusBonus) }) }))

/-- The final bonus awarding: each node's bonus is added into its
smoothing-pool ETH total. -/
def awardBonuses (l : List (Nat × NodeSmoothingDetails)) :
    List (Nat × NodeSmoothingDetails) :=
  l.map (fun p => (p.1, { p.2 with smoothingPoolEth := p.2.smoothingPoolEth + p.2.bonusEth }))

/-- The v10 bonus block of calculateNodeRewards: compute the minipool
bonuses and, when the remaining balance after base shares cannot cover the
total consensus bonus, record the scaled-down bonus scalar and rescale
every bonus; on rulesets before v10 the details pass through with the
default scalar of 1e18. -/
def ethBonusStage (s : NetworkState) (smoothingPoolBalance totalEthForMinipools : Int)
    (rulesetVersion : Nat) (nds : List (Nat × NodeSmoothingDetails)) :
    Except String (Int × List (Nat × NodeSmoothingDetails)) :=
  if 10 ≤ rulesetVersion then
    match calculateNodeBonuses s nds with
    | Except.error e => Except.error e
    | Except.ok (nds2, totalConsensusBonus) =>
      if smoothingPoolBalance - totalEthForMinipools < totalConsensusBonus then
        Except.ok (Int.ediv ((smoothingPoolBalance - totalEthForMinipools) * oneEth)
            totalConsensusBonus,
          scaleBonuses (smoothingPoolBalance - totalEthForMinipools) totalConsensusBonus nds2)
      else Except.ok (oneEth, nds2)
  else Except.ok (oneEth, nds)

/-- The tail of calculateNodeRewards: sanity-check the pre-bonus total
against the node-operator share within epsilon, then award the bonuses into
the node ETH totals and return the actual pool-staker remainder. -/
def ethFinalize (smoothingPoolBalance epsilon totalNodeOpShare totalEthForMinipools : Int)
    (rulesetVersion : Nat) (bonusScalar2 : Int) (nds3 : List (Nat × NodeSmoothingDetails)) :
    Except String (Int × Int × Int × List (Nat × NodeSmoothingDetails)) :=
  if epsilon < abs (totalEthForMinipools - totalNodeOpShare) then
    Except.error "error calculating smoothing pool ETH: error was too large"
  else
    let awarded : List (Nat × NodeSmoothingDetails) × Int :=
      if 10 ≤ rulesetVersion then
        (awardBonuses nds3, totalEthForMinipools + sumBy (fun nsd => nsd.bonusEth) nds3)
      else (nds3, totalEthForMinipools)
    Except.ok (smoothingPoolBalance - awarded.2, awarded.2, bonusScalar2, awarded.1)

/-- calculateNodeRewards (the smoothing-pool ETH distribution): exclude
cheaters, query the rolling record for scores, send the whole balance to
the pool stakers when there is nothing to reward, otherwise compute the
node-operator share with the two-step floor, apportion it per minipool by
score, then run the bonus stage and the finalization above. -/
def calculateNodeRewardsEth (s : NetworkState) (rr : RollingRecord)
    (smoothingPoolBalance epsilon : Int) (rulesetVersion : Nat) :
    Except String (Int × Int × Int × List (Nat × NodeSmoothingDetails)) :=
  let bonusScalar := oneEth
  let cheaters := getCheaters s
  let scores := rr.getScores cheaters
  let minipools := scores.1
  let totalScore := scores.2.1
  let attestationCount := scores.2.2
  if totalScore = 0 ∨ attestationCount = 0 then
    Except.ok (smoothingPoolBalance, 0, bonusScalar, [])
  else
    let totalNodeOpShare :=
      Int.ediv (Int.ediv (smoothingPoolBalance * totalScore) (Int.ofNat attestationCount)) oneEth
    let nds := buildNodeDetails s cheaters totalNodeOpShare totalScore minipools
    let totalEthForMinipools := sumBy (fun nsd => nsd.smoothingPoolEth) nds
    match ethBonusStage s smoothingPoolBalance totalEthForMinipools rulesetVersion nds with
    | Except.error e => Except.error e
    | Except.ok p =>
      ethFinalize smoothingPoolBalance epsilon totalNodeOpShare totalEthForMinipools
        rulesetVersion p.1 p.2

/-- The body of the rewards-map update loop of calculateEthRewards: a node
with a positive smoothing-pool ETH total gets (or lazily creates, with
network validation) its rewards entry and its network's aggregate entry,
each increased by the total. -/
def ethMapStep (g : TreeGen) (entry : Nat × NodeSmoothingDetails) : Except String TreeGen :=
  if 0 < entry.2.smoothingPoolEth then
    match getOrCreateNodeReward g entry.1 entry.2.rewardsNetwork with
    | Except.error e => Except.error e
    | Except.ok gnr =>
      Except.ok (bumpNodeReward gnr.1 entry.1
        { gnr.2 with smoothingPoolEth := gnr.2.smoothingPoolEth + entry.2.smoothingPoolEth }
        (fun w => { w with smoothingPoolEth := w.smoothingPoolEth + entry.2.smoothingPoolEth }))
  else Except.ok g

/-- calculateEthRewards: record the smoothing-pool balance; a zero balance
or the very first interval skips the ETH allocation as a no-op; otherwise
resolve the interval start (whose external fetch may fail), distribute the
balance, record the v10 bonus scalar, update the rewards maps, and set the
three smoothing-pool totals.  The checkBeaconPerformance flag is never read
by this generator. -/
def calculateEthRewards (g : TreeGen) (checkBeaconPerformance : Bool) : Except String TreeGen :=
  let balance := g.networkState.networkDetails.smoothingPoolBalance
  let g := { g with smoothingPoolBalance := balance }
  if balance = 0 then Except.ok g
  else if g.rewardsFile.index = 0 then Except.ok g
  else
    match g.startHeaderFetch with
    | Except.error e => Except.error e
    | Except.ok _ =>
      match calculateNodeRewardsEth g.networkState g.rollingRecord balance g.epsilon
          g.rewardsFile.rulesetVersion with
      | Except.error e => Except.error e
      | Except.ok (poolStakerETH, nodeOpEth, bonusScalar, nds) =>
        let g := { g with nodeDetailsSP := nds }
        let g :=
          if 10 ≤ g.rewardsFile.rulesetVersion then
            { g with bonusScalarRecorded := some bonusScalar }
          else g
        match runList ethMapStep g nds with
        | Except.error e => Except.error e
        | Except.ok g2 =>
          Except.ok { g2 with
            rewardsFile.totalRewards.poolStakerSmoothingPoolEth := poolStakerETH
            rewardsFile.totalRewards.nodeOperatorSmoothingPoolEth := nodeOpEth
            rewardsFile.totalRewards.totalSmoothingPoolEth := balance }

/-- The result of a tree-generation run. -/
structure GenerateTreeResult where
  rewardsFile : RewardsFile
  invalidNetworkNodes : List (Nat × Nat)
  merkleRoot : List NodeReward × List NetworkReward
deriving Repr, DecidableEq, Inhabited

/-- Modelled from the spec: SSZFile_v1.GenerateMerkleTree is implemented
outside this repository slice.  Per the spec the commitment builder
materializes the accumulator-derived sequences in a canonical,
deterministic order (the canonical byte order of the identifier) and
computes the Merkle root over the ordered leaf sequence with a fixed
encoding; the canonical order is modelled as ascending address and layer,
and the root as the canonically ordered leaf sequences themselves (a fixed
injective encoding determines the root from exactly these). -/
def RewardsFile.generateMerkleTree (f : RewardsFile) :
    RewardsFile × (List NodeReward × List NetworkReward) :=
  let nodes := sortByKey (fun nr => nr.address) f.nodeRewardsList
  let nets := sortByKey (fun w => w.network) f.networkRewardsList
  ({ f with nodeRewardsList := nodes, networkRewardsList := nets }, (nodes, nets))

/-- The allocation part of generateTree: provisioning, then the RPL and ETH
allocations with their error wrapping. -/
def allocPhase (g : TreeGen) : Except String TreeGen :=
  let g := provision g
  match calculateRplRewards g with
  | Except.error e => Except.error ("error calculating RPL rewards: " ++ e)
  | Except.ok g2 =>
    match calculateEthRewards g2 true with
    | Except.error e => Except.error ("error calculating ETH rewards: " ++ e)
    | Except.ok g3 => Except.ok g3

/-- generateTree: run the allocations, then materialize the node and
network accumulator maps into the rewards file lists.  nodeIter and netIter
are the Go map iteration orders; a run of the source corresponds to any
pair of permutations of the maps' entries.  Finally the Merkle tree is
generated over the file. -/
def generateTree (g : TreeGen) (nodeIter : List (Nat × NodeReward))
    (netIter : List (Nat × NetworkReward)) : Except String GenerateTreeResult :=
  match allocPhase g with
  | Except.error e => Except.error e
  | Except.ok g2 =>
    let f := { g2.rewardsFile with
      nodeRewardsList := g2.rewardsFile.nodeRewardsList ++
        nodeIter.map (fun (p : Nat × NodeReward) => { p.2 with address := p.1 })
      networkRewardsList := g2.rewardsFile.networkRewardsList ++
        netIter.map (fun (p : Nat × NetworkReward) => { p.2 with network := p.1 }) }
    let froot := f.generateMerkleTree
    Except.ok { rewardsFile := froot.1, invalidNetworkNodes := g2.invalidNetworkNodes
                merkleRoot := froot.2 }

/-- approximateStakerShareOfSmoothingPool: the fast approximation runs only
the ETH allocation (with checkBeaconPerformance false) after the same
provisioning, and returns the recorded pool-staker smoothing-pool ETH. -/
def approximateStakerShareOfSmoothingPool (g : TreeGen) : Except String Int :=
  let g := provision g
  match calculateEthRewards g false with
  | Except.error e => Except.error ("error calculating ETH rewards: " ++ e)
  | Except.ok g2 => Except.ok g2.rewardsFile.totalRewards.poolStakerSmoothingPoolEth

/-! Association-list lemmas. -/

theorem alookup_append {β : Type} (l l2 : List (Nat × β)) (k : Nat) :
    alookup (l ++ l2) k = ((alookup l k).rec (alookup l2 k) (fun v => some v)) := by
  induction l with
  | nil => simp [alookup]
  | cons p rest ih =>
    by_cases h : p.1 = k
    · simp [alookup, h]
    · simp [alookup, h, ih]

theorem alookup_append_of_none {β : Type} {l : List (Nat × β)} {k : Nat}
    (h : alookup l k = none) (l2 : List (Nat × β)) :
    alookup (l ++ l2) k = alookup l2 k := by
  rw [alookup_append, h]

theorem alookup_append_of_some {β : Type} {l : List (Nat × β)} {k : Nat} {v : β}
    (h : alookup l k = some v) (l2 : List (Nat × β)) :
    alookup (l ++ l2) k = some v := by
  rw [alookup_append, h]

theorem alookup_singleton_self {β : Type} (k : Nat) (v : β) :
    alookup [(k, v)] k = some v := by
  simp [alookup]

theorem alookup_singleton_ne {β : Type} {k k2 : Nat} (h : k ≠ k2) (v : β) :
    alookup [(k, v)] k2 = none := by
  simp [alookup, h]

theorem alookup_aset_self {β : Type} (l : List (Nat × β)) (k : Nat) (v : β) :
    alookup (aset l k v) k = (alookup l k).map (fun _ => v) := by
  induction l with
  | nil => simp [alookup, aset]
  | cons p rest ih =>
    by_cases h : p.1 = k
    · simp [alookup, aset, h]
    · simp [alookup, aset, h, ih]

theorem alookup_aset_ne {β : Type} {k k2 : Nat} (l : List (Nat × β)) (v : β) (h : k2 ≠ k) :
    alookup (aset l k v) k2 = alookup l k2 := by
  induction l with
  | nil => simp [alookup, aset]
  | cons p rest ih =>
    by_cases hp : p.1 = k
    · have hne : ¬ (k = k2) := fun he => h he.symm
      simp [alookup, aset, hp, hne, ih]
    · by_cases hp2 : p.1 = k2
      · simp [alookup, aset, hp, hp2, h]
      · simp [alookup, aset, hp, hp2, h, ih]

theorem mem_aset {β : Type} {l : List (Nat × β)} {k : Nat} {v : β} {p : Nat × β}
    (h : p ∈ aset l k v) : p ∈ l ∨ p = (k, v) := by
  induction l with
  | nil => simp [aset] at h
  | cons q rest ih =>
    simp only [aset, List.mem_cons] at h
    rcases h with h | h
    · by_cases hq : q.1 = k
      · simp [hq] at h
        right
        exact h
      · simp [hq] at h
        left
        simp [h]
    · rcases ih h with h2 | h2
      · left
        exact List.mem_cons_of_mem _ h2
      · right
        exact h2

theorem aset_keys {β : Type} (l : List (Nat × β)) (k : Nat) (v : β) :
    (aset l k v).map Prod.fst = l.map Prod.fst := by
  induction l with
  | nil => rfl
  | cons p rest ih =>
    by_cases h : p.1 = k
    · simp [aset, h, ih]
    · simp [aset, h, ih]

theorem keysND_aset {β : Type} {l : List (Nat × β)} (k : Nat) (v : β)
    (h : keysND l) : keysND (aset l k v) := by
  unfold keysND at h ⊢
  rw [aset_keys]
  exact h

theorem alookup_eq_none_iff {β : Type} (l : List (Nat × β)) (k : Nat) :
    alookup l k = none ↔ k ∉ l.map Prod.fst := by
  induction l with
  | nil => simp [alookup]
  | cons p rest ih =>
    by_cases h : p.1 = k
    · constructor
      · intro hc
        simp [alookup, h] at hc
      · intro hc
        exfalso
        exact hc (by simp [← h])
    · rw [show alookup (p :: rest) k = alookup rest k by simp [alookup, h]]
      rw [ih]
      constructor
      · intro hk
        simp only [List.map_cons, List.mem_cons]
        rintro (hc | hc)
        · exact h hc.symm
        · exact hk hc
      · intro hk hc
        exact hk (by simp only [List.map_cons, List.mem_cons]; exact Or.inr hc)

theorem keysND_append_new {β : Type} {l : List (Nat × β)} {k : Nat} (v : β)
    (hnd : keysND l) (h : alookup l k = none) : keysND (l ++ [(k, v)]) := by
  unfold keysND at hnd ⊢
  rw [List.map_append, List.nodup_append]
  refine ⟨hnd, List.nodup_singleton _, ?_⟩
  intro a ha hb
  simp at hb
  rw [hb] at ha
  exact (alookup_eq_none_iff l k).mp h ha

theorem aset_of_not_mem {β : Type} {l : List (Nat × β)} {k : Nat} (v : β)
    (h : k ∉ l.map Prod.fst) : aset l k v = l := by
  induction l with
  | nil => rfl
  | cons p rest ih =>
    have h1 : ¬ (p.1 = k) := by
      intro he
      exact h (by simp [he])
    have h2 : k ∉ rest.map Prod.fst := fun hc => h (by simp [hc])
    simp [aset, h1, ih h2]

theorem alookup_mem {β : Type} {l : List (Nat × β)} {k : Nat} {v : β}
    (h : alookup l k = some v) : (k, v) ∈ l := by
  induction l with
  | nil => simp [alookup] at h
  | cons p rest ih =>
    by_cases hp : p.1 = k
    · simp [alookup, hp] at h
      subst h
      rw [← hp]
      left
    · simp [alookup, hp] at h
      exact List.mem_cons_of_mem _ (ih h)

theorem sumBy_append {β : Type} (f : β → Int) (l l2 : List (Nat × β)) :
    sumBy f (l ++ l2) = sumBy f l + sumBy f l2 := by
  unfold sumBy
  rw [List.map_append, List.sum_append]

theorem sumBy_cons {β : Type} (f : β → Int) (p : Nat × β) (l : List (Nat × β)) :
    sumBy f (p :: l) = f p.2 + sumBy f l := by
  unfold sumBy
  simp

theorem sumBy_aset {β : Type} (f : β → Int) {l : List (Nat × β)} {k : Nat} {v0 : β}
    (v : β) (hnd : keysND l) (h : alookup l k = some v0) :
    sumBy f (aset l k v) = sumBy f l - f v0 + f v := by
  induction l with
  | nil => simp [alookup] at h
  | cons p rest ih =>
    have hnd2 : (p.1 :: rest.map Prod.fst).Nodup := by
      simpa [keysND] using hnd
    have hhead : p.1 ∉ rest.map Prod.fst := (List.nodup_cons.mp hnd2).1
    have hndr : keysND rest := by
      simpa [keysND] using (List.nodup_cons.mp hnd2).2
    by_cases hp : p.1 = k
    · simp [alookup, hp] at h
      have hk : k ∉ rest.map Prod.fst := hp ▸ hhead
      have hrest : aset rest k v = rest := aset_of_not_mem v hk
      simp [aset, hp, hrest, sumBy_cons, h]
      ring
    · simp [alookup, hp] at h
      simp [aset, hp, sumBy_cons, ih hndr h]
      ring

/-! Canonical sorting lemmas. -/

theorem sortByKey_perm {α : Type} (key : α → Nat) (l : List α) : (sortByKey key l).Perm l :=
  List.perm_insertionSort _ l

theorem sortByKey_sorted {α : Type} (key : α → Nat) (l : List α) :
    List.Sorted (fun a b => key a ≤ key b) (sortByKey key l) := by
  haveI : IsTotal α (fun a b => key a ≤ key b) := ⟨fun a b => Nat.le_total (key a) (key b)⟩
  haveI : IsTrans α (fun a b => key a ≤ key b) := ⟨fun a b c h1 h2 => Nat.le_trans h1 h2⟩
  exact List.sorted_insertionSort _ l

theorem sorted_lt_of_sorted_le_nodup {α : Type} {key : α → Nat} {l : List α}
    (hs : List.Sorted (fun a b => key a ≤ key b) l) (hnd : (l.map key).Nodup) :
    List.Sorted (fun a b => key a < key b) l := by
  have hne : List.Pairwise (fun a b => key a ≠ key b) l := List.pairwise_map.mp hnd
  exact (hs.and hne).imp (fun h => lt_of_le_of_ne h.1 h.2)

theorem sortByKey_eq_of_perm {α : Type} {key : α → Nat} {l1 l2 : List α}
    (hp : l1.Perm l2) (hnd : (l1.map key).Nodup) :
    sortByKey key l1 = sortByKey key l2 := by
  have hnd1 : ((sortByKey key l1).map key).Nodup :=
    (((sortByKey_perm key l1).map key).nodup_iff).mpr hnd
  have hnd2b : (l2.map key).Nodup := ((hp.map key).nodup_iff).mp hnd
  have hnd2 : ((sortByKey key l2).map key).Nodup :=
    (((sortByKey_perm key l2).map key).nodup_iff).mpr hnd2b
  have hs1 := sorted_lt_of_sorted_le_nodup (sortByKey_sorted key l1) hnd1
  have hs2 := sorted_lt_of_sorted_le_nodup (sortByKey_sorted key l2) hnd2
  have hperm : (sortByKey key l1).Perm (sortByKey key l2) :=
    ((sortByKey_perm key l1).trans hp).trans (sortByKey_perm key l2).symm
  haveI : IsAntisymm α (fun a b => key a < key b) :=
    ⟨fun a b h1 h2 => absurd h2 (Nat.lt_asymm h1)⟩
  exact List.eq_of_perm_of_sorted hperm hs1 hs2

/-! Generic fallible-loop lemmas. -/

theorem runList_ok_inv {α : Type} {step : TreeGen → α → Except String TreeGen}
    (P : TreeGen → Prop) :
    ∀ (l : List α), (∀ g a, a ∈ l → ∀ g2, step g a = Except.ok g2 → P g → P g2) →
    ∀ g g2, runList step g l = Except.ok g2 → P g → P g2 := by
  intro l
  induction l with
  | nil =>
    intro _ g g2 h hp
    unfold runList at h
    cases h
    exact hp
  | cons a rest ih =>
    intro hstep g g2 h hp
    unfold runList at h
    cases hx : step g a with
    | error e => rw [hx] at h; simp at h
    | ok gm =>
      rw [hx] at h
      exact ih (fun g a2 hmem g2 => hstep g a2 (List.mem_cons_of_mem _ hmem) g2) gm g2 h
        (hstep g a (List.mem_cons_self _ _) gm hx hp)

theorem runList_rel {α : Type} {step : TreeGen → α → Except String TreeGen}
    (R : TreeGen → TreeGen → Prop)
    (hrefl : ∀ g, R g g)
    (htrans : ∀ a b c, R a b → R b c → R a c)
    (hstep : ∀ g a g2, step g a = Except.ok g2 → R g g2) :
    ∀ (l : List α) (g g2), runList step g l = Except.ok g2 → R g g2 := by
  intro l
  induction l with
  | nil =>
    intro g g2 h
    unfold runList at h
    cases h
    exact hrefl _
  | cons a rest ih =>
    intro g g2 h
    unfold runList at h
    cases hx : step g a with
    | error e => rw [hx] at h; simp at h
    | ok gm =>
      rw [hx] at h
      exact htrans _ _ _ (hstep g a gm hx) (ih gm g2 h)

/-! State-preservation relation: everything but the four mutable maps. -/

/-- Everything outside the four accumulator maps (node rewards, network
rewards, invalid-network report, validity cache) is untouched. -/
def sameCore (g g2 : TreeGen) : Prop :=
  g2.networkState = g.networkState ∧ g2.rollingRecord = g.rollingRecord ∧
  g2.rewardsFile = g.rewardsFile ∧ g2.epsilon = g.epsilon ∧
  g2.smoothingPoolBalance = g.smoothingPoolBalance ∧
  g2.snapshotBlockTime = g.snapshotBlockTime ∧
  g2.getNetworkEnabled = g.getNetworkEnabled ∧
  g2.startHeaderFetch = g.startHeaderFetch ∧
  g2.nodeDetailsSP = g.nodeDetailsSP ∧
  g2.bonusScalarRecorded = g.bonusScalarRecorded

theorem sameCore_refl (g : TreeGen) : sameCore g g :=
  ⟨rfl, rfl, rfl, rfl, rfl, rfl, rfl, rfl, rfl, rfl⟩

theorem sameCore_trans {g g2 g3 : TreeGen} (h1 : sameCore g g2) (h2 : sameCore g2 g3) :
    sameCore g g3 := by
  obtain ⟨a1, b1, c1, d1, e1, f1, h1a, i1, j1, k1⟩ := h1
  obtain ⟨a2, b2, c2, d2, e2, f2, h2a, i2, j2, k2⟩ := h2
  exact ⟨a2.trans a1, b2.trans b1, c2.trans c1, d2.trans d1, e2.trans e1, f2.trans f1,
    h2a.trans h1a, i2.trans i1, j2.trans j1, k2.trans k1⟩

theorem validateNetwork_ok {g : TreeGen} {n : Nat} {out : Bool × TreeGen}
    (h : validateNetwork g n = Except.ok out) :
    sameCore g out.2 ∧ out.2.nodeRewards = g.nodeRewards ∧
      out.2.networkRewards = g.networkRewards ∧
      out.2.invalidNetworkNodes = g.invalidNetworkNodes := by
  unfold validateNetwork at h
  split at h
  · cases h
    exact ⟨sameCore_refl g, rfl, rfl, rfl⟩
  · split at h
    · simp at h
    · cases h
      exact ⟨⟨rfl, rfl, rfl, rfl, rfl, rfl, rfl, rfl, rfl, rfl⟩, rfl, rfl, rfl⟩

/-- What getOrCreateNodeReward does: the non-map state is untouched, the
network aggregate map is untouched, and the node map either already held
the returned entry or gets it appended as a fresh zeroed entry. -/
theorem getOrCreateNodeReward_ok {g : TreeGen} {addr network : Nat}
    {out : TreeGen × NodeReward}
    (h : getOrCreateNodeReward g addr network = Except.ok out) :
    sameCore g out.1 ∧ out.1.networkRewards = g.networkRewards ∧
      ((alookup g.nodeRewards addr = some out.2 ∧ out.1.nodeRewards = g.nodeRewards) ∨
       (alookup g.nodeRewards addr = none ∧ out.2 = NodeReward.new out.2.network addr ∧
        out.1.nodeRewards = g.nodeRewards ++ [(addr, out.2)])) := by
  unfold getOrCreateNodeReward at h
  split at h
  case h_1 nr heq =>
    cases h
    exact ⟨sameCore_refl g, rfl, Or.inl ⟨heq, rfl⟩⟩
  case h_2 heq =>
    cases hv : validateNetwork g network with
    | error e => rw [hv] at h; simp at h
    | ok vg =>
      rw [hv] at h
      obtain ⟨hcore, hnr, hwr, hinv⟩ := validateNetwork_ok hv
      obtain ⟨c1, c2, c3, c4, c5, c6, c7, c8, c9, c10⟩ := hcore
      by_cases hvalid : vg.1 = true
      · simp only [hvalid, if_true] at h
        cases h
        refine ⟨⟨?_, ?_, ?_, ?_, ?_, ?_, ?_, ?_, ?_, ?_⟩, ?_, Or.inr ⟨heq, rfl, ?_⟩⟩ <;>
          simp [c1, c2, c3, c4, c5, c6, c7, c8, c9, c10, hnr, hwr, hvalid]
      · simp only [hvalid, if_false] at h
        cases h
        refine ⟨⟨?_, ?_, ?_, ?_, ?_, ?_, ?_, ?_, ?_, ?_⟩, ?_, Or.inr ⟨heq, rfl, ?_⟩⟩ <;>
          simp [c1, c2, c3, c4, c5, c6, c7, c8, c9, c10, hnr, hwr, hvalid]

/-- What getOrCreateNetworkReward does. -/
theorem getOrCreateNetworkReward_ok (g : TreeGen) (network : Nat) :
    sameCore g (getOrCreateNetworkReward g network).1 ∧
      (getOrCreateNetworkReward g network).1.nodeRewards = g.nodeRewards ∧
      (getOrCreateNetworkReward g network).1.invalidNetworkNodes = g.invalidNetworkNodes ∧
      ((alookup g.networkRewards network = some (getOrCreateNetworkReward g network).2 ∧
        (getOrCreateNetworkReward g network).1.networkRewards = g.networkRewards) ∨
       (alookup g.networkRewards network = none ∧
        (getOrCreateNetworkReward g network).2 = NetworkReward.new network ∧
        (getOrCreateNetworkReward g network).1.networkRewards =
          g.networkRewards ++ [(network, NetworkReward.new network)])) := by
  unfold getOrCreateNetworkReward
  split
  case h_1 w heq =>
    exact ⟨sameCore_refl g, rfl, rfl, Or.inl ⟨heq, rfl⟩⟩
  case h_2 heq =>
    exact ⟨⟨rfl, rfl, rfl, rfl, rfl, rfl, rfl, rfl, rfl, rfl⟩, rfl, rfl, Or.inr ⟨heq, rfl, rfl⟩⟩


theorem aset_append {β : Type} (l l2 : List (Nat × β)) (k : Nat) (v : β) :
    aset (l ++ l2) k v = aset l k v ++ aset l2 k v := by
  induction l with
  | nil => rfl
  | cons p rest ih => simp [aset, ih]

theorem aset_append_last {β : Type} {l : List (Nat × β)} {k : Nat} (v v2 : β)
    (h : k ∉ l.map Prod.fst) : aset (l ++ [(k, v)]) k v2 = l ++ [(k, v2)] := by
  rw [aset_append, aset_of_not_mem _ h]
  simp [aset]

/-- What bumpNodeReward does to each component of the state. -/
theorem bumpNodeReward_spec (g : TreeGen) (addr : Nat) (nr2 : NodeReward)
    (bump : NetworkReward → NetworkReward) :
    sameCore g (bumpNodeReward g addr nr2 bump) ∧
    (bumpNodeReward g addr nr2 bump).nodeRewards = aset g.nodeRewards addr nr2 ∧
    (bumpNodeReward g addr nr2 bump).invalidNetworkNodes = g.invalidNetworkNodes ∧
    (bumpNodeReward g addr nr2 bump).validNetworkCache = g.validNetworkCache ∧
    ((∃ w, alookup g.networkRewards nr2.network = some w ∧
       (bumpNodeReward g addr nr2 bump).networkRewards =
         aset g.networkRewards nr2.network (bump w)) ∨
     (alookup g.networkRewards nr2.network = none ∧
       (bumpNodeReward g addr nr2 bump).networkRewards =
         g.networkRewards ++ [(nr2.network, bump (NetworkReward.new nr2.network))])) := by
  unfold bumpNodeReward getOrCreateNetworkReward
  dsimp only []
  split
  case h_1 w heq =>
    exact ⟨⟨rfl, rfl, rfl, rfl, rfl, rfl, rfl, rfl, rfl, rfl⟩, rfl, rfl, rfl,
      Or.inl ⟨w, heq, rfl⟩⟩
  case h_2 heq =>
    refine ⟨⟨rfl, rfl, rfl, rfl, rfl, rfl, rfl, rfl, rfl, rfl⟩, rfl, rfl, rfl,
      Or.inr ⟨heq, ?_⟩⟩
    exact aset_append_last _ _ ((alookup_eq_none_iff _ _).mp heq)

theorem collateralStep_cases {B W : Int} {nw : Nat → Int} {g : TreeGen} {nd : NodeDetailsGo}
    {g2 : TreeGen} (h : collateralStep B W nw g nd = Except.ok g2) :
    (calculateNodeRplRewards B (nw nd.nodeAddress) W ≤ 0 ∧ g2 = g) ∨
    (0 < calculateNodeRplRewards B (nw nd.nodeAddress) W ∧
      ∃ gnr : TreeGen × NodeReward,
        getOrCreateNodeReward g nd.nodeAddress nd.rewardNetwork = Except.ok gnr ∧
        g2 = bumpNodeReward gnr.1 nd.nodeAddress
          { gnr.2 with collateralRpl := gnr.2.collateralRpl +
              calculateNodeRplRewards B (nw nd.nodeAddress) W }
          (fun w => { w with collateralRpl := w.collateralRpl +
              calculateNodeRplRewards B (nw nd.nodeAddress) W })) := by
  unfold collateralStep at h
  by_cases hpos : 0 < calculateNodeRplRewards B (nw nd.nodeAddress) W
  · simp only [hpos, if_true] at h
    cases hx : getOrCreateNodeReward g nd.nodeAddress nd.rewardNetwork with
    | error e => rw [hx] at h; simp at h
    | ok gnr =>
      rw [hx] at h
      cases h
      exact Or.inr ⟨hpos, gnr, rfl, rfl⟩
  · simp only [hpos, if_false] at h
    cases h
    exact Or.inl ⟨le_of_not_lt hpos, rfl⟩

theorem odaoStep_cases {tO tT iD sT : Int} {g : TreeGen} {details : OracleDaoMemberDetails}
    {g2 : TreeGen} (h : odaoStep tO tT iD sT g details = Except.ok g2) :
    ∃ gnr : TreeGen × NodeReward,
      getOrCreateNodeReward g details.address
        (nodeDetailsByAddress g.networkState details.address).rewardNetwork = Except.ok gnr ∧
      g2 = bumpNodeReward gnr.1 details.address
        { gnr.2 with oracleDaoRpl := gnr.2.oracleDaoRpl + odaoRewardAmount tO tT iD sT details }
        (fun w => { w with oracleDaoRpl := w.oracleDaoRpl + odaoRewardAmount tO tT iD sT details })
        := by
  unfold odaoStep at h
  split at h
  case h_1 heq => simp at h
  case h_2 nd heq =>
    have hnd : nodeDetailsByAddress g.networkState details.address = nd := by
      unfold nodeDetailsByAddress
      rw [heq]
      rfl
    dsimp only [] at h
    cases hx : getOrCreateNodeReward g details.address nd.rewardNetwork with
    | error e => rw [hx] at h; simp at h
    | ok gnr =>
      rw [hx] at h
      cases h
      rw [hnd]
      exact ⟨gnr, hx, rfl⟩

theorem ethMapStep_cases {g : TreeGen} {entry : Nat × NodeSmoothingDetails} {g2 : TreeGen}
    (h : ethMapStep g entry = Except.ok g2) :
    (entry.2.smoothingPoolEth ≤ 0 ∧ g2 = g) ∨
    (0 < entry.2.smoothingPoolEth ∧
      ∃ gnr : TreeGen × NodeReward,
        getOrCreateNodeReward g entry.1 entry.2.rewardsNetwork = Except.ok gnr ∧
        g2 = bumpNodeReward gnr.1 entry.1
          { gnr.2 with smoothingPoolEth := gnr.2.smoothingPoolEth + entry.2.smoothingPoolEth }
          (fun w => { w with smoothingPoolEth := w.smoothingPoolEth +
              entry.2.smoothingPoolEth })) := by
  unfold ethMapStep at h
  by_cases hpos : 0 < entry.2.smoothingPoolEth
  · simp only [hpos, if_true] at h
    cases hx : getOrCreateNodeReward g entry.1 entry.2.rewardsNetwork with
    | error e => rw [hx] at h; simp at h
    | ok gnr =>
      rw [hx] at h
      cases h
      exact Or.inr ⟨hpos, gnr, rfl, rfl⟩
  · simp only [hpos, if_false] at h
    cases h
    exact Or.inl ⟨le_of_not_lt hpos, rfl⟩

theorem collateralStep_sameCore {B W : Int} {nw : Nat → Int} {g : TreeGen}
    {nd : NodeDetailsGo} {g2 : TreeGen} (h : collateralStep B W nw g nd = Except.ok g2) :
    sameCore g g2 := by
  rcases collateralStep_cases h with ⟨_, rfl⟩ | ⟨_, gnr, hx, rfl⟩
  · exact sameCore_refl _
  · exact sameCore_trans (getOrCreateNodeReward_ok hx).1 (bumpNodeReward_spec _ _ _ _).1

theorem odaoStep_sameCore {tO tT iD sT : Int} {g : TreeGen} {details : OracleDaoMemberDetails}
    {g2 : TreeGen} (h : odaoStep tO tT iD sT g details = Except.ok g2) :
    sameCore g g2 := by
  rcases odaoStep_cases h with ⟨gnr, hx, rfl⟩
  exact sameCore_trans (getOrCreateNodeReward_ok hx).1 (bumpNodeReward_spec _ _ _ _).1

theorem ethMapStep_sameCore {g : TreeGen} {entry : Nat × NodeSmoothingDetails} {g2 : TreeGen}
    (h : ethMapStep g entry = Except.ok g2) : sameCore g g2 := by
  rcases ethMapStep_cases h with ⟨_, rfl⟩ | ⟨_, gnr, hx, rfl⟩
  · exact sameCore_refl _
  · exact sameCore_trans (getOrCreateNodeReward_ok hx).1 (bumpNodeReward_spec _ _ _ _).1

/-! Loop-level corollaries. -/

theorem runList_collateral_sameCore {B W : Int} {nw : Nat → Int} {l : List NodeDetailsGo}
    {g g2 : TreeGen} (h : runList (collateralStep B W nw) g l = Except.ok g2) :
    sameCore g g2 :=
  runList_rel sameCore sameCore_refl (fun _ _ _ => sameCore_trans)
    (fun _ _ _ hs => collateralStep_sameCore hs) l g g2 h

theorem runList_odao_sameCore {tO tT iD sT : Int} {l : List OracleDaoMemberDetails}
    {g g2 : TreeGen} (h : runList (odaoStep tO tT iD sT) g l = Except.ok g2) :
    sameCore g g2 :=
  runList_rel sameCore sameCore_refl (fun _ _ _ => sameCore_trans)
    (fun _ _ _ hs => odaoStep_sameCore hs) l g g2 h

theorem runList_ethMap_sameCore {l : List (Nat × NodeSmoothingDetails)}
    {g g2 : TreeGen} (h : runList ethMapStep g l = Except.ok g2) :
    sameCore g g2 :=
  runList_rel sameCore sameCore_refl (fun _ _ _ => sameCore_trans)
    (fun _ _ _ hs => ethMapStep_sameCore hs) l g g2 h

/-! RPL phase decomposition. -/

/-- The fields of the run state that the RPL allocation can never change. -/
def rplUntouched (g g2 : TreeGen) : Prop :=
  g2.networkState = g.networkState ∧ g2.rollingRecord = g.rollingRecord ∧
  g2.rewardsFile.index = g.rewardsFile.index ∧
  g2.rewardsFile.rulesetVersion = g.rewardsFile.rulesetVersion ∧
  g2.epsilon = g.epsilon ∧ g2.smoothingPoolBalance = g.smoothingPoolBalance ∧
  g2.snapshotBlockTime = g.snapshotBlockTime ∧
  g2.getNetworkEnabled = g.getNetworkEnabled ∧
  g2.startHeaderFetch = g.startHeaderFetch ∧
  g2.nodeDetailsSP = g.nodeDetailsSP ∧ g2.bonusScalarRecorded = g.bonusScalarRecorded ∧
  g2.rewardsFile.totalRewards.poolStakerSmoothingPoolEth =
    g.rewardsFile.totalRewards.poolStakerSmoothingPoolEth ∧
  g2.rewardsFile.totalRewards.nodeOperatorSmoothingPoolEth =
    g.rewardsFile.totalRewards.nodeOperatorSmoothingPoolEth ∧
  g2.rewardsFile.totalRewards.totalSmoothingPoolEth =
    g.rewardsFile.totalRewards.totalSmoothingPoolEth

theorem rplUntouched_refl (g : TreeGen) : rplUntouched g g :=
  ⟨rfl, rfl, rfl, rfl, rfl, rfl, rfl, rfl, rfl, rfl, rfl, rfl, rfl, rfl⟩

theorem rplUntouched_trans {g g2 g3 : TreeGen} (h1 : rplUntouched g g2)
    (h2 : rplUntouched g2 g3) : rplUntouched g g3 := by
  obtain ⟨a1, b1, c1, d1, e1, f1, i1, j1, k1, l1, m1, n1, o1, p1⟩ := h1
  obtain ⟨a2, b2, c2, d2, e2, f2, i2, j2, k2, l2, m2, n2, o2, p2⟩ := h2
  exact ⟨a2.trans a1, b2.trans b1, c2.trans c1, d2.trans d1, e2.trans e1, f2.trans f1,
    i2.trans i1, j2.trans j1, k2.trans k1, l2.trans l1, m2.trans m1, n2.trans n1,
    o2.trans o1, p2.trans p1⟩

theorem sameCore_rplUntouched {g g2 : TreeGen} (h : sameCore g g2) : rplUntouched g g2 := by
  obtain ⟨a, b, c, d, e, f, i, j, k, l⟩ := h
  exact ⟨a, b, by rw [c], by rw [c], d, e, f, i, j, k, l, by rw [c], by rw [c], by rw [c]⟩

theorem rplCollateralPhase_ok {g : TreeGen} {pr pd tnr : Int} {out : TreeGen × Int}
    (h : rplCollateralPhase g pr pd tnr = Except.ok out) :
    rplUntouched g out.1 ∧
    out.1.rewardsFile.totalRewards.protocolDaoRpl =
      g.rewardsFile.totalRewards.protocolDaoRpl ∧
    out.1.rewardsFile.totalRewards.totalOracleDaoRpl =
      g.rewardsFile.totalRewards.totalOracleDaoRpl ∧
    ((0 < (g.networkState.calculateNodeWeights).2 ∧
      abs (tnr - out.1.rewardsFile.totalRewards.totalCollateralRpl) ≤ g.epsilon ∧
      out.2 = pr - out.1.rewardsFile.totalRewards.totalCollateralRpl) ∨
     ((g.networkState.calculateNodeWeights).2 ≤ 0 ∧
      out.1.rewardsFile.totalRewards.totalCollateralRpl =
        g.rewardsFile.totalRewards.totalCollateralRpl ∧
      out.2 = pd + tnr)) := by
  unfold rplCollateralPhase at h
  dsimp only [] at h
  split at h
  case isTrue hw =>
    cases hr : runList (collateralStep tnr (g.networkState.calculateNodeWeights).2
        (g.networkState.calculateNodeWeights).1)
        { g with rewardsFile.totalRewards.totalNodeWeight :=
            (g.networkState.calculateNodeWeights).2 }
        g.networkState.nodeDetails with
    | error e => rw [hr] at h; simp at h
    | ok gB =>
      rw [hr] at h
      dsimp only [] at h
      split at h
      case isTrue => simp at h
      case isFalse hd =>
        cases h
        have hcore := runList_collateral_sameCore hr
        have hA : rplUntouched g { g with rewardsFile.totalRewards.totalNodeWeight :=
            (g.networkState.calculateNodeWeights).2 } :=
          ⟨rfl, rfl, rfl, rfl, rfl, rfl, rfl, rfl, rfl, rfl, rfl, rfl, rfl, rfl⟩
        have hu : rplUntouched g gB := rplUntouched_trans hA (sameCore_rplUntouched hcore)
        obtain ⟨a, b, c, d, e, f, i, j, k, l, m, n, o, p⟩ := hu
        refine ⟨⟨a, b, c, d, e, f, i, j, k, l, m, n, o, p⟩, ?_, ?_, Or.inl ⟨hw, ?_, rfl⟩⟩
        · have : gB.rewardsFile.totalRewards.protocolDaoRpl =
              g.rewardsFile.totalRewards.protocolDaoRpl := by
            rw [hcore.2.2.1]
          exact this
        · have : gB.rewardsFile.totalRewards.totalOracleDaoRpl =
              g.rewardsFile.totalRewards.totalOracleDaoRpl := by
            rw [hcore.2.2.1]
          exact this
        · rw [← e]
          exact not_lt.mp hd
  case isFalse hw =>
    cases h
    exact ⟨rplUntouched_refl _, rfl, rfl, Or.inr ⟨le_of_not_lt hw, rfl, rfl⟩⟩

theorem rplOdaoPhase_ok {g : TreeGen} {pr pd : Int} {g2 : TreeGen}
    (h : rplOdaoPhase g pr pd = Except.ok g2) :
    rplUntouched g g2 ∧
    g2.rewardsFile.totalRewards.totalCollateralRpl =
      g.rewardsFile.totalRewards.totalCollateralRpl ∧
    abs (Int.ediv (pr * g.networkState.networkDetails.trustedNodeOperatorRewardsPercent) oneEth -
      g2.rewardsFile.totalRewards.totalOracleDaoRpl) ≤ g.epsilon ∧
    g2.rewardsFile.totalRewards.protocolDaoRpl =
      pd - g2.rewardsFile.totalRewards.totalOracleDaoRpl := by
  unfold rplOdaoPhase at h
  dsimp only [] at h
  split at h
  case h_1 e heq => simp at h
  case h_2 gB heq =>
    split at h
    case isTrue => simp at h
    case isFalse hd =>
      cases h
      have hcore := runList_odao_sameCore heq
      have hu : rplUntouched g gB := sameCore_rplUntouched hcore
      obtain ⟨a, b, c, d, e, f, i, j, k, l, m, n, o, p⟩ := hu
      refine ⟨⟨a, b, c, d, e, f, i, j, k, l, m, n, o, p⟩, ?_, ?_, rfl⟩
      · have : gB.rewardsFile.totalRewards.totalCollateralRpl =
            g.rewardsFile.totalRewards.totalCollateralRpl := by
          rw [hcore.2.2.1]
        exact this
      · rw [← e]
        exact not_lt.mp hd

theorem calculateRplRewards_ok {g g2 : TreeGen} (h : calculateRplRewards g = Except.ok g2) :
    g.networkState.networkDetails.pendingRPLRewards ≠ 0 ∧
    rplUntouched g g2 ∧
    abs (Int.ediv (g.networkState.networkDetails.pendingRPLRewards *
        g.networkState.networkDetails.trustedNodeOperatorRewardsPercent) oneEth -
      g2.rewardsFile.totalRewards.totalOracleDaoRpl) ≤ g.epsilon ∧
    ((0 < (g.networkState.calculateNodeWeights).2 ∧
      abs (Int.ediv (g.networkState.networkDetails.pendingRPLRewards *
          g.networkState.networkDetails.nodeOperatorRewardsPercent) oneEth -
        g2.rewardsFile.totalRewards.totalCollateralRpl) ≤ g.epsilon ∧
      g2.rewardsFile.totalRewards.protocolDaoRpl =
        g.networkState.networkDetails.pendingRPLRewards -
        g2.rewardsFile.totalRewards.totalCollateralRpl -
        g2.rewardsFile.totalRewards.totalOracleDaoRpl) ∨
     ((g.networkState.calculateNodeWeights).2 ≤ 0 ∧
      g2.rewardsFile.totalRewards.totalCollateralRpl =
        g.rewardsFile.totalRewards.totalCollateralRpl ∧
      g2.rewardsFile.totalRewards.protocolDaoRpl =
        Int.ediv (g.networkState.networkDetails.pendingRPLRewards *
          g.networkState.networkDetails.protocolDaoRewardsPercent) oneEth +
        Int.ediv (g.networkState.networkDetails.pendingRPLRewards *
          g.networkState.networkDetails.nodeOperatorRewardsPercent) oneEth -
        g2.rewardsFile.totalRewards.totalOracleDaoRpl)) := by
  unfold calculateRplRewards at h
  dsimp only [] at h
  split at h
  case isTrue => simp at h
  case isFalse hpz =>
    split at h
    case h_1 e heq => simp at h
    case h_2 gB pd2 heq =>
      obtain ⟨huA, hpA, hoA, hbranch⟩ := rplCollateralPhase_ok heq
      dsimp only [] at huA hpA hoA hbranch
      obtain ⟨huB, hcB, hdB, hpB⟩ := rplOdaoPhase_ok h
      have hu : rplUntouched g g2 := rplUntouched_trans huA huB
      obtain ⟨a1, b1, c1, d1, e1, f1, i1, j1, k1, l1, m1, n1, o1, p1⟩ := huA
      refine ⟨hpz, hu, ?_, ?_⟩
      · rw [a1, e1] at hdB
        exact hdB
      · rcases hbranch with ⟨hw, hde, hout⟩ | ⟨hw, hcol, hout⟩
        · left
          refine ⟨hw, ?_, ?_⟩
          · rw [hcB]
            exact hde
          · rw [hpB, hout, hcB]
        · right
          refine ⟨hw, ?_, ?_⟩
          · rw [hcB, hcol]
          · rw [hpB, hout]

theorem calculateRplRewards_zero_pending {g : TreeGen}
    (h : g.networkState.networkDetails.pendingRPLRewards = 0) :
    calculateRplRewards g =
      Except.error "there are no pending RPL rewards, so this interval cannot be used for rewards submission" := by
  unfold calculateRplRewards
  simp [h]

/-! ETH phase decomposition. -/

theorem calculateEthRewards_ok {g g2 : TreeGen} {cb : Bool}
    (h : calculateEthRewards g cb = Except.ok g2) :
    g2.networkState = g.networkState ∧ g2.rollingRecord = g.rollingRecord ∧
    g2.rewardsFile.index = g.rewardsFile.index ∧
    g2.rewardsFile.rulesetVersion = g.rewardsFile.rulesetVersion ∧
    g2.epsilon = g.epsilon ∧
    g2.rewardsFile.totalRewards.protocolDaoRpl =
      g.rewardsFile.totalRewards.protocolDaoRpl ∧
    g2.rewardsFile.totalRewards.totalCollateralRpl =
      g.rewardsFile.totalRewards.totalCollateralRpl ∧
    g2.rewardsFile.totalRewards.totalOracleDaoRpl =
      g.rewardsFile.totalRewards.totalOracleDaoRpl ∧
    g2.rewardsFile.totalRewards.totalNodeWeight =
      g.rewardsFile.totalRewards.totalNodeWeight ∧
    ((g.networkState.networkDetails.smoothingPoolBalance = 0 ∧
      g2 = { g with smoothingPoolBalance := g.networkState.networkDetails.smoothingPoolBalance }) ∨
     (g.networkState.networkDetails.smoothingPoolBalance ≠ 0 ∧ g.rewardsFile.index = 0 ∧
      g2 = { g with smoothingPoolBalance := g.networkState.networkDetails.smoothingPoolBalance }) ∨
     (g.networkState.networkDetails.smoothingPoolBalance ≠ 0 ∧ g.rewardsFile.index ≠ 0 ∧
      ∃ res : Int × Int × Int × List (Nat × NodeSmoothingDetails),
        calculateNodeRewardsEth g.networkState g.rollingRecord
          g.networkState.networkDetails.smoothingPoolBalance g.epsilon
          g.rewardsFile.rulesetVersion = Except.ok res ∧
        g2.rewardsFile.totalRewards.poolStakerSmoothingPoolEth = res.1 ∧
        g2.rewardsFile.totalRewards.nodeOperatorSmoothingPoolEth = res.2.1 ∧
        g2.rewardsFile.totalRewards.totalSmoothingPoolEth =
          g.networkState.networkDetails.smoothingPoolBalance ∧
        g2.nodeDetailsSP = res.2.2.2)) := by
  unfold calculateEthRewards at h
  dsimp only [] at h
  split at h
  case isTrue hz =>
    cases h
    exact ⟨rfl, rfl, rfl, rfl, rfl, rfl, rfl, rfl, rfl, Or.inl ⟨hz, rfl⟩⟩
  case isFalse hz =>
    split at h
    case isTrue hi =>
      cases h
      exact ⟨rfl, rfl, rfl, rfl, rfl, rfl, rfl, rfl, rfl, Or.inr (Or.inl ⟨hz, hi, rfl⟩)⟩
    case isFalse hi =>
      split at h
      case h_1 e heq => simp at h
      case h_2 u heq =>
        split at h
        case h_1 e2 heq2 => simp at h
        case h_2 ps opEth bs nds heq2 =>
          split at h
          case h_1 e3 heq3 => simp at h
          case h_2 gM heq3 =>
            cases h
            have hcore := runList_ethMap_sameCore heq3
            obtain ⟨a, b, c, d, e, f, i, j, k, l⟩ := hcore
            dsimp only []
            refine ⟨?_, ?_, ?_, ?_, ?_, ?_, ?_, ?_, ?_,
              Or.inr (Or.inr ⟨hz, hi, (ps, opEth, bs, nds), heq2, rfl, rfl, rfl, ?_⟩)⟩
            · rw [a]
              split <;> rfl
            · rw [b]
              split <;> rfl
            · rw [c]
              split <;> rfl
            · rw [c]
              split <;> rfl
            · rw [d]
              split <;> rfl
            · rw [c]
              split <;> rfl
            · rw [c]
              split <;> rfl
            · rw [c]
              split <;> rfl
            · rw [c]
              split <;> rfl
            · rw [k]
              split <;> rfl

theorem allocPhase_ok {g g3 : TreeGen} (h : allocPhase g = Except.ok g3) :
    ∃ g2, calculateRplRewards (provision g) = Except.ok g2 ∧
      calculateEthRewards g2 true = Except.ok g3 := by
  unfold allocPhase at h
  dsimp only [] at h
  split at h
  case h_1 e heq => simp at h
  case h_2 g2 heq =>
    split at h
    case h_1 e2 heq2 => simp at h
    case h_2 g3b heq2 =>
      cases h
      exact ⟨g2, heq, heq2⟩

theorem generateTree_ok {g : TreeGen} {ni : List (Nat × NodeReward)}
    {ti : List (Nat × NetworkReward)} {res : GenerateTreeResult}
    (h : generateTree g ni ti = Except.ok res) :
    ∃ g3, allocPhase g = Except.ok g3 ∧
      res.rewardsFile.totalRewards = g3.rewardsFile.totalRewards ∧
      res.invalidNetworkNodes = g3.invalidNetworkNodes ∧
      res.rewardsFile.nodeRewardsList =
        sortByKey (fun nr => nr.address) (g3.rewardsFile.nodeRewardsList ++
          ni.map (fun p => { p.2 with address := p.1 })) ∧
      res.rewardsFile.networkRewardsList =
        sortByKey (fun w => w.network) (g3.rewardsFile.networkRewardsList ++
          ti.map (fun p => { p.2 with network := p.1 })) ∧
      res.merkleRoot = (res.rewardsFile.nodeRewardsList, res.rewardsFile.networkRewardsList) := by
  unfold generateTree at h
  dsimp only [] at h
  split at h
  case h_1 e heq => simp at h
  case h_2 g3 heq =>
    cases h
    exact ⟨g3, heq, rfl, rfl, rfl, rfl, rfl⟩

/-- Decidable equality of run outcomes, for evaluating concrete runs. -/
instance {ε α : Type} [DecidableEq ε] [DecidableEq α] : DecidableEq (Except ε α) := fun x y =>
  match x, y with
  | Except.ok a, Except.ok b =>
    if h : a = b then isTrue (by rw [h]) else isFalse (fun he => h (Except.ok.inj he))
  | Except.error e, Except.error f =>
    if h : e = f then isTrue (by rw [h]) else isFalse (fun he => h (Except.error.inj he))
  | Except.ok _, Except.error _ => isFalse (fun he => Except.noConfusion he)
  | Except.error _, Except.ok _ => isFalse (fun he => Except.noConfusion he)

/-! Claim C1: concrete run exhibiting the zero-weight residual. -/

/-- A snapshot with one node of zero weight, one long-joined oDAO member,
treasury and collateral percentages of one half each, and a pending reward
of 1e18 plus 1 wei. -/
def c1State : NetworkState :=
  { nodeDetails := [⟨1, 0⟩]
    minipoolDetails := []
    networkDetails :=
      { pendingRPLRewards := 10 ^ 18 + 1
        protocolDaoRewardsPercent := 5 * 10 ^ 17
        nodeOperatorRewardsPercent := 5 * 10 ^ 17
        trustedNodeOperatorRewardsPercent := 0
        intervalDurationSeconds := 100
        smoothingPoolBalance := 0 }
    oracleDaoMemberDetails := [⟨1, 0⟩]
    rawNodeWeight := fun _ => 0
    percentOfBorrowedEthOf := fun _ => 0 }

/-- The C1 run state. -/
def c1Gen : TreeGen :=
  newTreeGenerator 9 1 c1State ⟨0, []⟩ 1000 (fun _ => Except.ok true) (Except.ok ())

/-- The node-reward map iteration order used for the C1 run. -/
def c1NodeIter : List (Nat × NodeReward) :=
  match allocPhase c1Gen with
  | Except.ok g => g.nodeRewards
  | Except.error _ => []

/-- The network-reward map iteration order used for the C1 run. -/
def c1NetIter : List (Nat × NetworkReward) :=
  match allocPhase c1Gen with
  | Except.ok g => g.networkRewards
  | Except.error _ => []

/-- C1 counterexample: a generateTree run that completes without error in
the zero-total-node-weight case, whose recorded Protocol DAO RPL plus total
collateral RPL plus total Oracle DAO RPL is 1e18, while the pending reward
amount is 1e18 plus 1: the claimed integer equality fails in the zero
total-node-weight case. -/
theorem c1_counterexample :
    (generateTree c1Gen c1NodeIter c1NetIter).map
        (fun res => res.rewardsFile.totalRewards.protocolDaoRpl +
          res.rewardsFile.totalRewards.totalCollateralRpl +
          res.rewardsFile.totalRewards.totalOracleDaoRpl) =
      Except.ok (10 ^ 18) ∧
    c1Gen.networkState.networkDetails.pendingRPLRewards = 10 ^ 18 + 1 ∧
    (c1Gen.networkState.calculateNodeWeights).2 = 0 := by
  refine ⟨by decide, by decide, by decide⟩

/-- C1 (amended): for every run of generateTree from a fresh generator that
completes without error, when the total node weight is positive the
recorded Protocol DAO RPL plus total collateral RPL plus total Oracle DAO
RPL equals the pending reward amount exactly; when the total node weight is
not positive, the recorded total collateral RPL is zero and the sum instead
equals floor(pending times treasuryPercent over 1e18) plus floor(pending
times collateralPercent over 1e18), which can fall short of the pending
amount. -/
theorem c1_amended_theorem (rulesetVersion index : Nat) (s : NetworkState)
    (rr : RollingRecord) (sbt : Int) (gne : Nat → Except String Bool)
    (shf : Except String Unit) (ni : List (Nat × NodeReward))
    (ti : List (Nat × NetworkReward)) (res : GenerateTreeResult)
    (h : generateTree (newTreeGenerator rulesetVersion index s rr sbt gne shf) ni ti =
      Except.ok res) :
    (0 < (s.calculateNodeWeights).2 →
      res.rewardsFile.totalRewards.protocolDaoRpl +
        res.rewardsFile.totalRewards.totalCollateralRpl +
        res.rewardsFile.totalRewards.totalOracleDaoRpl =
      s.networkDetails.pendingRPLRewards) ∧
    ((s.calculateNodeWeights).2 ≤ 0 →
      res.rewardsFile.totalRewards.totalCollateralRpl = 0 ∧
      res.rewardsFile.totalRewards.protocolDaoRpl +
        res.rewardsFile.totalRewards.totalCollateralRpl +
        res.rewardsFile.totalRewards.totalOracleDaoRpl =
      Int.ediv (s.networkDetails.pendingRPLRewards *
        s.networkDetails.protocolDaoRewardsPercent) oneEth +
      Int.ediv (s.networkDetails.pendingRPLRewards *
        s.networkDetails.nodeOperatorRewardsPercent) oneEth) := by
  obtain ⟨g3, halloc, htot, _, _, _, _⟩ := generateTree_ok h
  obtain ⟨g2, hrpl, heth⟩ := allocPhase_ok halloc
  obtain ⟨_, _, _, _, _, hp3, hc3, ho3, _, _⟩ := calculateEthRewards_ok heth
  obtain ⟨hpz, hu, hod, hbranch⟩ := calculateRplRewards_ok hrpl
  dsimp only [provision, newTreeGenerator] at hbranch
  rw [htot]
  constructor
  · intro hw
    rcases hbranch with ⟨_, _, hpro⟩ | ⟨hw0, _, _⟩
    · rw [hp3, hc3, ho3, hpro]
      ring
    · exact absurd hw (not_lt.mpr hw0)
  · intro hw
    rcases hbranch with ⟨hw0, _, _⟩ | ⟨_, hcol, hpro⟩
    · exact absurd hw0 (not_lt.mpr hw)
    · have hz : g2.rewardsFile.totalRewards.totalCollateralRpl = 0 := by
        rw [hcol]
      refine ⟨by rw [hc3, hz], ?_⟩
      rw [hp3, hc3, ho3, hpro, hz]
      ring

/-- A snapshot where one node holds positive weight, for the C1 witness. -/
def c1wState : NetworkState :=
  { nodeDetails := [⟨1, 0⟩]
    minipoolDetails := []
    networkDetails :=
      { pendingRPLRewards := 10 ^ 18
        protocolDaoRewardsPercent := 5 * 10 ^ 17
        nodeOperatorRewardsPercent := 5 * 10 ^ 17
        trustedNodeOperatorRewardsPercent := 0
        intervalDurationSeconds := 100
        smoothingPoolBalance := 0 }
    oracleDaoMemberDetails := []
    rawNodeWeight := fun _ => 1
    percentOfBorrowedEthOf := fun _ => 0 }

/-- The C1 witness run state. -/
def c1wGen : TreeGen :=
  newTreeGenerator 9 1 c1wState ⟨0, []⟩ 1000 (fun _ => Except.ok true) (Except.ok ())

/-- The C1 witness node-reward iteration order. -/
def c1wNodeIter : List (Nat × NodeReward) :=
  match allocPhase c1wGen with
  | Except.ok g => g.nodeRewards
  | Except.error _ => []

/-- The C1 witness network-reward iteration order. -/
def c1wNetIter : List (Nat × NetworkReward) :=
  match allocPhase c1wGen with
  | Except.ok g => g.networkRewards
  | Except.error _ => []

/-- The C1 witness run result. -/
def c1wRes : GenerateTreeResult :=
  match generateTree c1wGen c1wNodeIter c1wNetIter with
  | Except.ok r => r
  | Except.error _ => default

/-- Witness for the amended C1 theorem at a concrete positive-weight run. -/
theorem c1_amended_witness :
    0 < (c1wState.calculateNodeWeights).2 ∧
    c1wRes.rewardsFile.totalRewards.protocolDaoRpl +
      c1wRes.rewardsFile.totalRewards.totalCollateralRpl +
      c1wRes.rewardsFile.totalRewards.totalOracleDaoRpl =
    c1wState.networkDetails.pendingRPLRewards :=
  ⟨by decide,
    (c1_amended_theorem 9 1 c1wState ⟨0, []⟩ 1000 (fun _ => Except.ok true) (Except.ok ())
      c1wNodeIter c1wNetIter c1wRes (by decide)).1 (by decide)⟩

/-! Claim C8: zero pending amount is fatal; zero balance or first interval is a no-op. -/

/-- C8: if the interval's pending token-reward amount is exactly zero, a
generateTree run fails with an error and produces no artifact; whereas a
zero smoothing-pool balance, or interval index zero, makes calculateEthRewards
return successfully having only recorded the balance field, a no-op on the
rewards state, regardless of the checkBeaconPerformance flag. -/
theorem c8_theorem (g : TreeGen) (ni : List (Nat × NodeReward))
    (ti : List (Nat × NetworkReward)) (cb : Bool) :
    (g.networkState.networkDetails.pendingRPLRewards = 0 →
      ∃ e, generateTree g ni ti = Except.error e) ∧
    (g.networkState.networkDetails.smoothingPoolBalance = 0 →
      calculateEthRewards g cb = Except.ok
        { g with smoothingPoolBalance := g.networkState.networkDetails.smoothingPoolBalance }) ∧
    (g.rewardsFile.index = 0 →
      calculateEthRewards g cb = Except.ok
        { g with smoothingPoolBalance := g.networkState.networkDetails.smoothingPoolBalance }) := by
  refine ⟨?_, ?_, ?_⟩
  · intro hp
    refine ⟨"error calculating RPL rewards: " ++
      "there are no pending RPL rewards, so this interval cannot be used for rewards submission", ?_⟩
    unfold generateTree allocPhase
    dsimp only []
    rw [calculateRplRewards_zero_pending
      (show (provision g).networkState.networkDetails.pendingRPLRewards = 0 from hp)]
  · intro hb
    unfold calculateEthRewards
    dsimp only []
    simp [hb]
  · intro hi
    unfold calculateEthRewards
    dsimp only []
    by_cases hb : g.networkState.networkDetails.smoothingPoolBalance = 0
    · simp [hb]
    · simp [hb, hi]

/-- A run state with zero pending rewards, zero balance and index zero. -/
def c8Gen : TreeGen :=
  newTreeGenerator 9 0
    { nodeDetails := [⟨1, 0⟩]
      minipoolDetails := []
      networkDetails :=
        { pendingRPLRewards := 0
          protocolDaoRewardsPercent := 5 * 10 ^ 17
          nodeOperatorRewardsPercent := 5 * 10 ^ 17
          trustedNodeOperatorRewardsPercent := 0
          intervalDurationSeconds := 100
          smoothingPoolBalance := 0 }
      oracleDaoMemberDetails := []
      rawNodeWeight := fun _ => 1
      percentOfBorrowedEthOf := fun _ => 0 }
    ⟨0, []⟩ 1000 (fun _ => Except.ok true) (Except.ok ())

/-- Witness for C8 at a concrete state with zero pending rewards, zero
balance and index zero. -/
theorem c8_witness :
    (∃ e, generateTree c8Gen [] [] = Except.error e) ∧
    calculateEthRewards c8Gen true = Except.ok
      { c8Gen with smoothingPoolBalance := c8Gen.networkState.networkDetails.smoothingPoolBalance } ∧
    calculateEthRewards c8Gen true = Except.ok
      { c8Gen with smoothingPoolBalance := c8Gen.networkState.networkDetails.smoothingPoolBalance } :=
  ⟨(c8_theorem c8Gen [] [] true).1 (by decide),
   (c8_theorem c8Gen [] [] true).2.1 (by decide),
   (c8_theorem c8Gen [] [] true).2.2 (by decide)⟩

/-! Claim C10: the approximation and the full run record the same pool-staker ETH. -/

/-- C10: approximateStakerShareOfSmoothingPool returns exactly the
pool-staker smoothing-pool ETH that a completed generateTree run on the
same fresh inputs records in its totals, and the checkBeaconPerformance
flag passed to calculateEthRewards has no effect at all on the computation. -/
theorem c10_theorem (rulesetVersion index : Nat) (s : NetworkState) (rr : RollingRecord)
    (sbt : Int) (gne : Nat → Except String Bool) (shf : Except String Unit)
    (ni : List (Nat × NodeReward)) (ti : List (Nat × NetworkReward)) (v : Int)
    (res : GenerateTreeResult)
    (ha : approximateStakerShareOfSmoothingPool
      (newTreeGenerator rulesetVersion index s rr sbt gne shf) = Except.ok v)
    (hf : generateTree (newTreeGenerator rulesetVersion index s rr sbt gne shf) ni ti =
      Except.ok res) :
    res.rewardsFile.totalRewards.poolStakerSmoothingPoolEth = v ∧
    (∀ g b1 b2, calculateEthRewards g b1 = calculateEthRewards g b2) := by
  refine ⟨?_, fun g b1 b2 => rfl⟩
  obtain ⟨g3, halloc, htot, _, _, _, _⟩ := generateTree_ok hf
  obtain ⟨g2, hrpl, heth⟩ := allocPhase_ok halloc
  unfold approximateStakerShareOfSmoothingPool at ha
  dsimp only [] at ha
  split at ha
  case h_1 e hga => simp at ha
  case h_2 ga hga =>
    cases ha
    obtain ⟨ea1, ea2, ea3, ea4, ea5, _, _, _, _, habranch⟩ := calculateEthRewards_ok hga
    obtain ⟨eb1, eb2, eb3, eb4, eb5, _, _, _, _, hbbranch⟩ := calculateEthRewards_ok heth
    obtain ⟨u1, u2, u3, u4, u5, u6, u7, u8, u9, u10, u11, u12, u13, u14⟩ :=
      (calculateRplRewards_ok hrpl).2.1
    dsimp only [provision, newTreeGenerator] at habranch u1 u2 u3 u4 u5 u12
    rw [u1] at hbbranch
    rw [htot]
    rcases habranch with ⟨haz, hae⟩ | ⟨haz, hai, hae⟩ | ⟨haz, hai, resA, hra, hpsA, _, _, _⟩ <;>
      rcases hbbranch with ⟨hbz, hbe⟩ | ⟨hbz, hbi, hbe⟩ | ⟨hbz, hbi, resB, hrb, hpsB, _, _, _⟩
    · rw [hbe, hae]
      simpa using u12
    · exact absurd haz hbz
    · exact absurd haz hbz
    · exact absurd hbz haz
    · rw [hbe, hae]
      simpa using u12
    · rw [u3] at hbi
      exact absurd hai hbi
    · exact absurd hbz haz
    · rw [u3] at hbi
      exact absurd hbi hai
    · rw [u2, u4, u5] at hrb
      rw [hra] at hrb
      cases hrb
      rw [hpsA, hpsB]

/-- The scored minipool for the C10 witness. -/
def c10Mp : MinipoolInfo :=
  { address := 10, nodeAddress := 1, attestationScore := 10 ^ 18, attestationCount := 1
    consensusIncome := none, eligibleForBonuses := false, minipoolShare := 0
    minipoolBonus := none, totalFee := 0, nodeOperatorBond := 0 }

/-- The on-chain minipool record for the C10 witness. -/
def c10Mpd : MinipoolDetailsGo :=
  { address := 10, nodeAddress := 1, nodeFee := 10 ^ 17
    nodeDepositBalance := 8 * 10 ^ 18, penaltyCount := 0 }

/-- The snapshot for the C10 witness: one node, one minipool, a 2 ETH
smoothing pool fully earned by the node. -/
def c10State : NetworkState :=
  { nodeDetails := [⟨1, 0⟩]
    minipoolDetails := [c10Mpd]
    networkDetails :=
      { pendingRPLRewards := 10 ^ 18
        protocolDaoRewardsPercent := 5 * 10 ^ 17
        nodeOperatorRewardsPercent := 5 * 10 ^ 17
        trustedNodeOperatorRewardsPercent := 0
        intervalDurationSeconds := 100
        smoothingPoolBalance := 2 * 10 ^ 18 }
    oracleDaoMemberDetails := []
    rawNodeWeight := fun _ => 1
    percentOfBorrowedEthOf := fun _ => 0 }

/-- The C10 witness run state. -/
def c10Gen : TreeGen :=
  newTreeGenerator 9 1 c10State ⟨0, [c10Mp]⟩ 1000 (fun _ => Except.ok true) (Except.ok ())

/-- The C10 witness node-reward iteration order. -/
def c10NodeIter : List (Nat × NodeReward) :=
  match allocPhase c10Gen with
  | Except.ok g => g.nodeRewards
  | Except.error _ => []

/-- The C10 witness network-reward iteration order. -/
def c10NetIter : List (Nat × NetworkReward) :=
  match allocPhase c10Gen with
  | Except.ok g => g.networkRewards
  | Except.error _ => []

/-- The C10 witness run result. -/
def c10Res : GenerateTreeResult :=
  match generateTree c10Gen c10NodeIter c10NetIter with
  | Except.ok r => r
  | Except.error _ => default

/-- Witness for C10 at a concrete run where both the approximation and the
full run record zero pool-staker ETH. -/
theorem c10_witness :
    c10Res.rewardsFile.totalRewards.poolStakerSmoothingPoolEth = 0 ∧
    (∀ g b1 b2, calculateEthRewards g b1 = calculateEthRewards g b2) :=
  c10_theorem 9 1 c10State ⟨0, [c10Mp]⟩ 1000 (fun _ => Except.ok true) (Except.ok ())
    c10NodeIter c10NetIter 0 c10Res (by decide) (by decide)

/-! Views of the ETH pipeline stages, for stating the claims. -/

/-- The scores the run obtains from the rolling record. -/
def ethScores (s : NetworkState) (rr : RollingRecord) : List MinipoolInfo × Int × Nat :=
  rr.getScores (getCheaters s)

/-- The node-operator share (totalNodeOpShare): the two-step floor of the
balance times total score over attestation count, then over 1e18. -/
def ethBudget (s : NetworkState) (rr : RollingRecord) (bal : Int) : Int :=
  Int.ediv (Int.ediv (bal * (ethScores s rr).2.1) (Int.ofNat (ethScores s rr).2.2)) oneEth

/-- The node details map the run builds from the scored minipools. -/
def ethBuilt (s : NetworkState) (rr : RollingRecord) (bal : Int) :
    List (Nat × NodeSmoothingDetails) :=
  buildNodeDetails s (getCheaters s) (ethBudget s rr bal) (ethScores s rr).2.1 (ethScores s rr).1

/-- The pre-bonus total of per-node smoothing-pool ETH. -/
def ethBase (s : NetworkState) (rr : RollingRecord) (bal : Int) : Int :=
  sumBy (fun nsd => nsd.smoothingPoolEth) (ethBuilt s rr bal)

/-- The run epsilon: the larger of node count and minipool count. -/
def epsilonOf (s : NetworkState) : Int :=
  Int.ofNat (if s.minipoolDetails.length < s.nodeDetails.length then s.nodeDetails.length
    else s.minipoolDetails.length)

/-! Build-loop lemmas. -/

theorem buildNodeDetails_sum_aux (s : NetworkState) (ch : Nat → Bool) (S T : Int) :
    ∀ (mps : List MinipoolInfo) (acc : List (Nat × NodeSmoothingDetails)), keysND acc →
      keysND (List.foldl (buildStep s ch S T) acc mps) ∧
      sumBy (fun nsd => nsd.smoothingPoolEth) (List.foldl (buildStep s ch S T) acc mps) =
        sumBy (fun nsd => nsd.smoothingPoolEth) acc +
          (mps.map (fun mp => Int.ediv (S * mp.attestationScore) T)).sum := by
  intro mps
  induction mps with
  | nil =>
    intro acc h
    refine ⟨h, by simp⟩
  | cons mp rest ih =>
    intro acc h
    have hstep : keysND (buildStep s ch S T acc mp) ∧
        sumBy (fun nsd => nsd.smoothingPoolEth) (buildStep s ch S T acc mp) =
          sumBy (fun nsd => nsd.smoothingPoolEth) acc + Int.ediv (S * mp.attestationScore) T := by
      unfold buildStep
      dsimp only []
      split
      case h_1 ni hni =>
        refine ⟨keysND_aset _ _ h, ?_⟩
        rw [sumBy_aset (fun nsd => nsd.smoothingPoolEth) _ h hni]
        dsimp only []
        ring
      case h_2 hni =>
        have hnd2 := keysND_append_new
          { address := (nodeDetailsByAddress s mp.nodeAddress).nodeAddress
            isEligible := !(ch mp.nodeAddress), minipools := [], smoothingPoolEth := 0
            bonusEth := 0
            rewardsNetwork := (nodeDetailsByAddress s mp.nodeAddress).rewardNetwork } h hni
        have hl2 : alookup (acc ++ [(mp.nodeAddress,
            { address := (nodeDetailsByAddress s mp.nodeAddress).nodeAddress
              isEligible := !(ch mp.nodeAddress), minipools := [], smoothingPoolEth := 0
              bonusEth := 0
              rewardsNetwork := (nodeDetailsByAddress s mp.nodeAddress).rewardNetwork })])
            mp.nodeAddress = some
            { address := (nodeDetailsByAddress s mp.nodeAddress).nodeAddress
              isEligible := !(ch mp.nodeAddress), minipools := [], smoothingPoolEth := 0
              bonusEth := 0
              rewardsNetwork := (nodeDetailsByAddress s mp.nodeAddress).rewardNetwork } := by
          rw [alookup_append_of_none hni]
          exact alookup_singleton_self _ _
        refine ⟨keysND_aset _ _ hnd2, ?_⟩
        rw [sumBy_aset (fun nsd => nsd.smoothingPoolEth) _ hnd2 hl2]
        rw [sumBy_append]
        dsimp only [sumBy]
        simp
    have := ih (buildStep s ch S T acc mp) hstep.1
    refine ⟨this.1, ?_⟩
    rw [List.foldl_cons, this.2, hstep.2]
    rw [List.map_cons, List.sum_cons]
    ring

theorem ethBase_eq (s : NetworkState) (rr : RollingRecord) (bal : Int) :
    ethBase s rr bal = ((ethScores s rr).1.map (fun mp =>
      Int.ediv (ethBudget s rr bal * mp.attestationScore) (ethScores s rr).2.1)).sum := by
  unfold ethBase ethBuilt buildNodeDetails
  have := buildNodeDetails_sum_aux s (getCheaters s) (ethBudget s rr bal)
    (ethScores s rr).2.1 (ethScores s rr).1 [] (by simp [keysND])
  rw [this.2]
  simp [sumBy]

/-- The record a scored minipool is stored as by the build loop. -/
def storedMinipool (s : NetworkState) (S T : Int) (mp : MinipoolInfo) : MinipoolInfo :=
  { mp with nodeOperatorBond := (minipoolDetailsByAddress s mp.address).nodeDepositBalance
            minipoolShare := Int.ediv (S * mp.attestationScore) T }

theorem buildStep_pred {s : NetworkState} {ch : Nat → Bool} {S T : Int}
    {acc : List (Nat × NodeSmoothingDetails)} {mp : MinipoolInfo}
    (P : MinipoolInfo → Prop) (hPmp : P (storedMinipool s S T mp))
    (hacc : ∀ k nsd, (k, nsd) ∈ acc → ∀ mp2, mp2 ∈ nsd.minipools → P mp2) :
    ∀ k nsd, (k, nsd) ∈ buildStep s ch S T acc mp →
      ∀ mp2, mp2 ∈ nsd.minipools → P mp2 := by
  intro k nsd hmem mp2 hmp2
  revert hmem
  unfold buildStep
  dsimp only []
  split
  case h_1 ni hni =>
    intro hmem
    rcases mem_aset hmem with hin | heq
    · exact hacc k nsd hin mp2 hmp2
    · have hk := Prod.mk.injEq .. |>.mp heq
      have hmm : mp2 ∈ ni.minipools ++ [storedMinipool s S T mp] := by
        rw [hk.2] at hmp2
        exact hmp2
      rcases List.mem_append.mp hmm with hin2 | hin2
      · exact hacc mp.nodeAddress ni (alookup_mem hni) mp2 hin2
      · have hmp3 : mp2 = storedMinipool s S T mp := by simpa using hin2
        rw [hmp3]
        exact hPmp
  case h_2 hni =>
    intro hmem
    rcases mem_aset hmem with hin | heq
    · rcases List.mem_append.mp hin with hin2 | hin2
      · exact hacc k nsd hin2 mp2 hmp2
      · have hn0 := List.mem_singleton.mp hin2
        have hk := Prod.mk.injEq .. |>.mp hn0
        rw [hk.2] at hmp2
        simp at hmp2
    · have hk := Prod.mk.injEq .. |>.mp heq
      have hmm : mp2 ∈ ([] : List MinipoolInfo) ++ [storedMinipool s S T mp] := by
        rw [hk.2] at hmp2
        exact hmp2
      have hmp3 : mp2 = storedMinipool s S T mp := by simpa using hmm
      rw [hmp3]
      exact hPmp

theorem buildNodeDetails_pred (s : NetworkState) (ch : Nat → Bool) (S T : Int)
    (P : MinipoolInfo → Prop) :
    ∀ (mps : List MinipoolInfo) (acc : List (Nat × NodeSmoothingDetails)),
      (∀ mp, mp ∈ mps → P (storedMinipool s S T mp)) →
      (∀ k nsd, (k, nsd) ∈ acc → ∀ mp2, mp2 ∈ nsd.minipools → P mp2) →
      ∀ k nsd, (k, nsd) ∈ List.foldl (buildStep s ch S T) acc mps →
        ∀ mp2, mp2 ∈ nsd.minipools → P mp2 := by
  intro mps
  induction mps with
  | nil =>
    intro acc _ hacc k nsd hmem
    exact hacc k nsd hmem
  | cons mp rest ih =>
    intro acc hmps hacc
    rw [List.foldl_cons]
    exact ih (buildStep s ch S T acc mp)
      (fun mp2 hmp2 => hmps mp2 (List.mem_cons_of_mem _ hmp2))
      (buildStep_pred P (hmps mp (List.mem_cons_self _ _)) hacc)

theorem buildStep_bonusEth {s : NetworkState} {ch : Nat → Bool} {S T : Int}
    {acc : List (Nat × NodeSmoothingDetails)} {mp : MinipoolInfo}
    (hacc : ∀ k nsd, (k, nsd) ∈ acc → nsd.bonusEth = 0) :
    ∀ k nsd, (k, nsd) ∈ buildStep s ch S T acc mp → nsd.bonusEth = 0 := by
  intro k nsd hmem
  revert hmem
  unfold buildStep
  dsimp only []
  split
  case h_1 ni hni =>
    intro hmem
    rcases mem_aset hmem with hin | heq
    · exact hacc k nsd hin
    · have hk := Prod.mk.injEq .. |>.mp heq
      rw [hk.2]
      exact hacc mp.nodeAddress ni (alookup_mem hni)
  case h_2 hni =>
    intro hmem
    rcases mem_aset hmem with hin | heq
    · rcases List.mem_append.mp hin with hin2 | hin2
      · exact hacc k nsd hin2
      · have hk := Prod.mk.injEq .. |>.mp (List.mem_singleton.mp hin2)
        rw [hk.2]
    · have hk := Prod.mk.injEq .. |>.mp heq
      rw [hk.2]

theorem buildNodeDetails_bonusEth (s : NetworkState) (ch : Nat → Bool) (S T : Int) :
    ∀ (mps : List MinipoolInfo) (acc : List (Nat × NodeSmoothingDetails)),
      (∀ k nsd, (k, nsd) ∈ acc → nsd.bonusEth = 0) →
      ∀ k nsd, (k, nsd) ∈ List.foldl (buildStep s ch S T) acc mps → nsd.bonusEth = 0 := by
  intro mps
  induction mps with
  | nil =>
    intro acc hacc k nsd hmem
    exact hacc k nsd hmem
  | cons mp rest ih =>
    intro acc hacc
    rw [List.foldl_cons]
    exact ih (buildStep s ch S T acc mp) (buildStep_bonusEth hacc)

theorem ethFinalize_ok {bal eps S tot : Int} {ver : Nat} {sc : Int}
    {nds3 : List (Nat × NodeSmoothingDetails)}
    {out : Int × Int × Int × List (Nat × NodeSmoothingDetails)}
    (h : ethFinalize bal eps S tot ver sc nds3 = Except.ok out) :
    abs (tot - S) ≤ eps ∧ out.1 = bal - out.2.1 ∧ out.2.2.1 = sc ∧
    ((10 ≤ ver ∧ out.2.1 = tot + sumBy (fun nsd => nsd.bonusEth) nds3 ∧
       out.2.2.2 = awardBonuses nds3) ∨
     (ver < 10 ∧ out.2.1 = tot ∧ out.2.2.2 = nds3)) := by
  unfold ethFinalize at h
  split at h
  case isTrue => simp at h
  case isFalse hd =>
    dsimp only [] at h
    cases h
    refine ⟨not_lt.mp hd, ?_, ?_, ?_⟩
    · rfl
    · rfl
    · by_cases hv : 10 ≤ ver
      · exact Or.inl ⟨hv, by rw [if_pos hv], by rw [if_pos hv]⟩
      · exact Or.inr ⟨not_le.mp hv, by rw [if_neg hv], by rw [if_neg hv]⟩

theorem calculateNodeRewardsEth_main {s : NetworkState} {rr : RollingRecord}
    {bal eps : Int} {ver : Nat}
    {out : Int × Int × Int × List (Nat × NodeSmoothingDetails)}
    (h : calculateNodeRewardsEth s rr bal eps ver = Except.ok out)
    (hts : (ethScores s rr).2.1 ≠ 0) (hac : (ethScores s rr).2.2 ≠ 0) :
    ∃ p : Int × List (Nat × NodeSmoothingDetails),
      ethBonusStage s bal (ethBase s rr bal) ver (ethBuilt s rr bal) = Except.ok p ∧
      ethFinalize bal eps (ethBudget s rr bal) (ethBase s rr bal) ver p.1 p.2 =
        Except.ok out := by
  unfold calculateNodeRewardsEth at h
  dsimp only [] at h
  split at h
  case isTrue hcond =>
    rcases hcond with h0 | h0
    · exact absurd h0 hts
    · exact absurd h0 hac
  case isFalse hcond =>
    split at h
    case h_1 e heq => simp at h
    case h_2 p heq => exact ⟨p, heq, h⟩

/-! Claim C3: every weighted split stays within the epsilon bound or the run aborts. -/

/-- C3: for every run of generateTree that completes, each weighted split
is within epsilon of its budget, where epsilon is the larger of node count
and minipool count: the collateral RPL split (when a positive total weight
made it run), the Oracle DAO RPL split, and the smoothing-pool ETH split
(when the ETH allocation actually distributed, i.e. nonzero balance,
non-first interval and nonzero scores).  Since these are exactly the
deltas the source compares against epsilon before continuing, a delta
exceeding epsilon makes the run abort with an error instead. -/
theorem c3_theorem (rulesetVersion index : Nat) (s : NetworkState) (rr : RollingRecord)
    (sbt : Int) (gne : Nat → Except String Bool) (shf : Except String Unit)
    (ni : List (Nat × NodeReward)) (ti : List (Nat × NetworkReward))
    (res : GenerateTreeResult)
    (h : generateTree (newTreeGenerator rulesetVersion index s rr sbt gne shf) ni ti =
      Except.ok res) :
    (0 < (s.calculateNodeWeights).2 →
      abs (Int.ediv (s.networkDetails.pendingRPLRewards *
          s.networkDetails.nodeOperatorRewardsPercent) oneEth -
        res.rewardsFile.totalRewards.totalCollateralRpl) ≤ epsilonOf s) ∧
    abs (Int.ediv (s.networkDetails.pendingRPLRewards *
        s.networkDetails.trustedNodeOperatorRewardsPercent) oneEth -
      res.rewardsFile.totalRewards.totalOracleDaoRpl) ≤ epsilonOf s ∧
    (s.networkDetails.smoothingPoolBalance ≠ 0 → index ≠ 0 →
      (ethScores s rr).2.1 ≠ 0 → (ethScores s rr).2.2 ≠ 0 →
      abs (ethBudget s rr s.networkDetails.smoothingPoolBalance -
        ((ethScores s rr).1.map (fun mp =>
          Int.ediv (ethBudget s rr s.networkDetails.smoothingPoolBalance * mp.attestationScore)
            (ethScores s rr).2.1)).sum) ≤ epsilonOf s) := by
  obtain ⟨g3, halloc, htot, _, _, _, _⟩ := generateTree_ok h
  obtain ⟨g2, hrpl, heth⟩ := allocPhase_ok halloc
  obtain ⟨e1, e2, e3, e4, e5, ep, ec, eo, ew, hbranch⟩ := calculateEthRewards_ok heth
  obtain ⟨hpz, hu, hod, hrbranch⟩ := calculateRplRewards_ok hrpl
  obtain ⟨u1, u2, u3, u4, u5, u6, u7, u8, u9, u10, u11, u12, u13, u14⟩ := hu
  dsimp only [provision, newTreeGenerator] at hod hrbranch u1 u2 u3 u4 u5
  rw [htot]
  refine ⟨?_, ?_, ?_⟩
  · intro hw
    rcases hrbranch with ⟨_, hde, _⟩ | ⟨hw0, _, _⟩
    · rw [ec]
      exact hde
    · exact absurd hw (not_lt.mpr hw0)
  · rw [eo]
    exact hod
  · intro hb hi h1 h2
    rcases hbranch with ⟨hb0, _⟩ | ⟨_, hi0, _⟩ | ⟨_, _, resE, hre, _, _, _, _⟩
    · rw [u1] at hb0
      exact absurd hb0 hb
    · rw [u3] at hi0
      exact absurd hi0 hi
    · rw [u1, u2, u4, u5] at hre
      obtain ⟨p, hbs, hfin⟩ := calculateNodeRewardsEth_main hre h1 h2
      have hdel := (ethFinalize_ok hfin).1
      rw [ethBase_eq, abs_sub_comm] at hdel
      exact hdel

/-- Witness for C3 at a concrete run exercising all three splits. -/
theorem c3_witness :
    abs (Int.ediv (c10State.networkDetails.pendingRPLRewards *
        c10State.networkDetails.nodeOperatorRewardsPercent) oneEth -
      c10Res.rewardsFile.totalRewards.totalCollateralRpl) ≤ epsilonOf c10State ∧
    abs (Int.ediv (c10State.networkDetails.pendingRPLRewards *
        c10State.networkDetails.trustedNodeOperatorRewardsPercent) oneEth -
      c10Res.rewardsFile.totalRewards.totalOracleDaoRpl) ≤ epsilonOf c10State ∧
    abs (ethBudget c10State ⟨0, [c10Mp]⟩ c10State.networkDetails.smoothingPoolBalance -
      ((ethScores c10State ⟨0, [c10Mp]⟩).1.map (fun mp =>
        Int.ediv (ethBudget c10State ⟨0, [c10Mp]⟩
          c10State.networkDetails.smoothingPoolBalance * mp.attestationScore)
          (ethScores c10State ⟨0, [c10Mp]⟩).2.1)).sum) ≤ epsilonOf c10State := by
  have T := c3_theorem 9 1 c10State ⟨0, [c10Mp]⟩ 1000 (fun _ => Except.ok true) (Except.ok ())
    c10NodeIter c10NetIter c10Res (by decide)
  exact ⟨T.1 (by decide), T.2.1, T.2.2 (by decide) (by decide) (by decide) (by decide)⟩

/-! Bonus-calculator lemmas. -/

theorem calcMinipoolBonus_spec {s : NetworkState} {pob : Int} {mp : MinipoolInfo}
    {out : MinipoolInfo × Int} (h : calcMinipoolBonus s pob mp = Except.ok out) :
    out.1.address = mp.address ∧
    out.1.minipoolShare = mp.minipoolShare ∧
    out.1.attestationScore = mp.attestationScore ∧
    out.1.attestationCount = mp.attestationCount ∧
    0 ≤ out.2 ∧
    (out.1.minipoolBonus = some out.2 ∨ (out.1.minipoolBonus = none ∧ out.2 = 0)) ∧
    (∀ b, out.1.minipoolBonus = some b → out.1.totalFee ≤ fourteenPercentEth) ∧
    (out.1.minipoolBonus = none → out.1.totalFee = mp.totalFee) := by
  unfold calcMinipoolBonus at h
  dsimp only [] at h
  split at h
  case isTrue =>
    cases h
    exact ⟨rfl, rfl, rfl, rfl, le_refl 0, Or.inr ⟨rfl, rfl⟩,
      fun b hb => by simp at hb, fun _ => rfl⟩
  case isFalse =>
    split at h
    all_goals
      split at h
      case isTrue =>
        cases h
        exact ⟨rfl, rfl, rfl, rfl, le_refl 0, Or.inr ⟨rfl, rfl⟩,
          fun b hb => by simp at hb, fun _ => rfl⟩
      case isFalse =>
        split at h
        case isTrue => simp at h
        case isFalse hcap =>
          cases h
          refine ⟨rfl, rfl, rfl, rfl, ?_, Or.inl rfl,
            fun b hb => not_lt.mp hcap, fun hn => by simp at hn⟩
          dsimp only []
          split
          case isTrue => exact le_refl 0
          case isFalse h0 => exact not_lt.mp h0

/-- The per-minipool rewrite scaleBonuses applies: the bonus is recomputed
as the floored direct ratio of the original bonus times the remaining
balance over the total consensus bonus. -/
def scaledMinipool (r T : Int) (mp : MinipoolInfo) : MinipoolInfo :=
  { mp with minipoolBonus := mp.minipoolBonus.map (fun b => Int.ediv (b * r) T) }

theorem bonusMinipoolsLoop_pred {s : NetworkState} {pob : Int}
    (Q : MinipoolInfo → Prop)
    (hQ : ∀ mp out2, calcMinipoolBonus s pob mp = Except.ok out2 → Q mp → Q out2.1) :
    ∀ {l : List MinipoolInfo} {out : List MinipoolInfo × Int},
      bonusMinipoolsLoop s pob l = Except.ok out →
      (∀ mp, mp ∈ l → Q mp) → ∀ mp2, mp2 ∈ out.1 → Q mp2 := by
  intro l
  induction l with
  | nil =>
    intro out h hl mp2 hmp2
    unfold bonusMinipoolsLoop at h
    cases h
    simp at hmp2
  | cons mp rest ih =>
    intro out h hl mp2 hmp2
    unfold bonusMinipoolsLoop at h
    split at h
    case h_1 e heq => simp at h
    case h_2 mo b heq =>
      split at h
      case h_1 e2 heq2 => simp at h
      case h_2 ro bs heq2 =>
        cases h
        rcases List.mem_cons.mp hmp2 with hh | hh
        · rw [hh]
          exact hQ mp (mo, b) heq (hl mp (List.mem_cons_self _ _))
        · exact ih heq2 (fun m hm => hl m (List.mem_cons_of_mem _ hm)) mp2 hh

theorem bonusNode_pred {s : NetworkState} (Q : MinipoolInfo → Prop)
    (hQ : ∀ pob mp out2, calcMinipoolBonus s pob mp = Except.ok out2 → Q mp → Q out2.1)
    {nsd : NodeSmoothingDetails} {out : NodeSmoothingDetails × Int}
    (h : bonusNode s nsd = Except.ok out)
    (hin : ∀ mp, mp ∈ nsd.minipools → Q mp) :
    ∀ mp2, mp2 ∈ out.1.minipools → Q mp2 := by
  unfold bonusNode at h
  dsimp only [] at h
  split at h
  case isTrue =>
    cases h
    exact hin
  case isFalse =>
    split at h
    case h_1 e heq => simp at h
    case h_2 mps2 total heq =>
      cases h
      intro mp2 hmp2
      exact bonusMinipoolsLoop_pred Q (hQ _) heq hin mp2 hmp2

theorem calculateNodeBonuses_pred {s : NetworkState} (Q : MinipoolInfo → Prop)
    (hQ : ∀ pob mp out2, calcMinipoolBonus s pob mp = Except.ok out2 → Q mp → Q out2.1) :
    ∀ {l : List (Nat × NodeSmoothingDetails)} {out : List (Nat × NodeSmoothingDetails) × Int},
      calculateNodeBonuses s l = Except.ok out →
      (∀ k nsd, (k, nsd) ∈ l → ∀ mp, mp ∈ nsd.minipools → Q mp) →
      ∀ k nsd, (k, nsd) ∈ out.1 → ∀ mp2, mp2 ∈ nsd.minipools → Q mp2 := by
  intro l
  induction l with
  | nil =>
    intro out h hl k nsd hmem
    unfold calculateNodeBonuses at h
    cases h
    simp at hmem
  | cons p rest ih =>
    obtain ⟨k0, nsd0⟩ := p
    intro out h hl k nsd hmem
    unfold calculateNodeBonuses at h
    split at h
    case h_1 e heq => simp at h
    case h_2 no b heq =>
      split at h
      case h_1 e2 heq2 => simp at h
      case h_2 ro bs heq2 =>
        cases h
        rcases List.mem_cons.mp hmem with hh | hh
        · have hk := Prod.mk.injEq .. |>.mp hh
          rw [hk.2]
          exact bonusNode_pred Q hQ heq (hl k0 nsd0 (List.mem_cons_self _ _))
        · exact ih heq2 (fun k2 n2 hm => hl k2 n2 (List.mem_cons_of_mem _ hm)) k nsd hh

theorem scaleBonuses_pred (Q : MinipoolInfo → Prop) (r T : Int)
    (hQ : ∀ mp, Q mp → Q (scaledMinipool r T mp))
    {l : List (Nat × NodeSmoothingDetails)}
    (hin : ∀ k nsd, (k, nsd) ∈ l → ∀ mp, mp ∈ nsd.minipools → Q mp) :
    ∀ k nsd, (k, nsd) ∈ scaleBonuses r T l → ∀ mp2, mp2 ∈ nsd.minipools → Q mp2 := by
  intro k nsd hmem mp2 hmp2
  unfold scaleBonuses at hmem
  rcases List.mem_map.mp hmem with ⟨p, hp, heq⟩
  have hk := Prod.mk.injEq .. |>.mp heq
  rw [← hk.2] at hmp2
  dsimp only [] at hmp2
  rcases List.mem_map.mp hmp2 with ⟨mp0, hmp0, heq0⟩
  rw [← heq0]
  refine hQ mp0 (hin p.1 p.2 ?_ mp0 hmp0)
  rw [Prod.mk.eta]
  exact hp

theorem awardBonuses_mem {l : List (Nat × NodeSmoothingDetails)} {k : Nat}
    {nsd : NodeSmoothingDetails} (h : (k, nsd) ∈ awardBonuses l) :
    ∃ nsd0, (k, nsd0) ∈ l ∧ nsd.minipools = nsd0.minipools ∧ nsd.bonusEth = nsd0.bonusEth := by
  unfold awardBonuses at h
  rcases List.mem_map.mp h with ⟨p, hp, heq⟩
  have hk := Prod.mk.injEq .. |>.mp heq
  refine ⟨p.2, ?_, by rw [← hk.2], by rw [← hk.2]⟩
  rw [← hk.1, Prod.mk.eta]
  exact hp

theorem ethBonusStage_pred {s : NetworkState} (Q : MinipoolInfo → Prop)
    (hQcalc : ∀ pob mp out2, calcMinipoolBonus s pob mp = Except.ok out2 → Q mp → Q out2.1)
    (hQscale : ∀ r T mp, Q mp → Q (scaledMinipool r T mp))
    {bal tot : Int} {ver : Nat} {nds : List (Nat × NodeSmoothingDetails)}
    {out : Int × List (Nat × NodeSmoothingDetails)}
    (h : ethBonusStage s bal tot ver nds = Except.ok out)
    (hin : ∀ k nsd, (k, nsd) ∈ nds → ∀ mp, mp ∈ nsd.minipools → Q mp) :
    ∀ k nsd, (k, nsd) ∈ out.2 → ∀ mp2, mp2 ∈ nsd.minipools → Q mp2 := by
  unfold ethBonusStage at h
  split at h
  case isTrue hver =>
    split at h
    case h_1 e heq => simp at h
    case h_2 nds2 tcb heq =>
      have hmid := calculateNodeBonuses_pred Q hQcalc heq hin
      split at h
      case isTrue hlt =>
        cases h
        exact scaleBonuses_pred Q _ _ (hQscale _ _) hmid
      case isFalse hlt =>
        cases h
        exact hmid
  case isFalse hver =>
    cases h
    exact hin

theorem calculateNodeRewardsEth_pred {s : NetworkState} {rr : RollingRecord}
    {bal eps : Int} {ver : Nat} {out : Int × Int × Int × List (Nat × NodeSmoothingDetails)}
    (Q : MinipoolInfo → Prop)
    (hQcalc : ∀ pob mp out2, calcMinipoolBonus s pob mp = Except.ok out2 → Q mp → Q out2.1)
    (hQscale : ∀ r T mp, Q mp → Q (scaledMinipool r T mp))
    (hstored : ∀ mp, mp ∈ (ethScores s rr).1 →
      Q (storedMinipool s (ethBudget s rr bal) (ethScores s rr).2.1 mp))
    (h : calculateNodeRewardsEth s rr bal eps ver = Except.ok out) :
    ∀ k nsd, (k, nsd) ∈ out.2.2.2 → ∀ mp2, mp2 ∈ nsd.minipools → Q mp2 := by
  unfold calculateNodeRewardsEth at h
  dsimp only [] at h
  split at h
  case isTrue hc =>
    cases h
    intro k nsd hmem
    simp at hmem
  case isFalse hc =>
    split at h
    case h_1 e heq => simp at h
    case h_2 p heq =>
      have heq2 : ethBonusStage s bal (ethBase s rr bal) ver (ethBuilt s rr bal) =
          Except.ok p := heq
      have hfin : ethFinalize bal eps (ethBudget s rr bal) (ethBase s rr bal) ver p.1 p.2 =
          Except.ok out := h
      have hbuilt : ∀ k nsd, (k, nsd) ∈ ethBuilt s rr bal →
          ∀ mp, mp ∈ nsd.minipools → Q mp :=
        buildNodeDetails_pred s (getCheaters s) (ethBudget s rr bal) (ethScores s rr).2.1 Q
          (ethScores s rr).1 [] hstored (by intro k nsd hmem; simp at hmem)
      have hstage := ethBonusStage_pred Q hQcalc hQscale heq2 hbuilt
      obtain ⟨hdelta, hps, hsc, hbr⟩ := ethFinalize_ok hfin
      rcases hbr with ⟨hv, hop, hnds⟩ | ⟨hv, hop, hnds⟩
      · intro k nsd hmem mp2 hmp2
        rw [hnds] at hmem
        obtain ⟨nsd0, hn0, hmps, hb0⟩ := awardBonuses_mem hmem
        rw [hmps] at hmp2
        exact hstage k nsd0 hn0 mp2 hmp2
      · intro k nsd hmem
        rw [hnds] at hmem
        exact hstage k nsd hmem

/-! Claim C7: the two-step-floor node-operator share and the per-minipool
score apportionment. -/

/-- C7: whenever the smoothing-pool balance is non-zero, the interval index
is non-zero and the total attestation score and count are non-zero, the
node-operator share the run distributes is the two-step floor — the balance
times total score divided by attestation count first, by 1e18 second — and
every minipool stored in the run's node details carries the base share
floor(nodeOperatorShare * minipoolScore / totalScore); the later bonus
stages never alter the stored share. -/
theorem c7_theorem (g g2 : TreeGen) (cb : Bool)
    (h : calculateEthRewards g cb = Except.ok g2)
    (hbal : g.networkState.networkDetails.smoothingPoolBalance ≠ 0)
    (hidx : g.rewardsFile.index ≠ 0)
    (hts : (ethScores g.networkState g.rollingRecord).2.1 ≠ 0)
    (hac : (ethScores g.networkState g.rollingRecord).2.2 ≠ 0) :
    ethBudget g.networkState g.rollingRecord
        g.networkState.networkDetails.smoothingPoolBalance =
      Int.ediv (Int.ediv (g.networkState.networkDetails.smoothingPoolBalance *
          (ethScores g.networkState g.rollingRecord).2.1)
        (Int.ofNat (ethScores g.networkState g.rollingRecord).2.2)) oneEth ∧
    ∀ k nsd, (k, nsd) ∈ g2.nodeDetailsSP → ∀ mp, mp ∈ nsd.minipools →
      mp.minipoolShare = Int.ediv
        (Int.ediv (Int.ediv (g.networkState.networkDetails.smoothingPoolBalance *
            (ethScores g.networkState g.rollingRecord).2.1)
          (Int.ofNat (ethScores g.networkState g.rollingRecord).2.2)) oneEth *
          mp.attestationScore)
        (ethScores g.networkState g.rollingRecord).2.1 := by
  refine ⟨rfl, ?_⟩
  obtain ⟨-, -, -, -, -, -, -, -, -, hbr⟩ := calculateEthRewards_ok h
  rcases hbr with ⟨h0, _⟩ | ⟨_, h0, _⟩ | ⟨_, _, res, hres, _, _, _, hnds⟩
  · exact absurd h0 hbal
  · exact absurd h0 hidx
  · intro k nsd hmem mp hmp
    rw [hnds] at hmem
    have hpred := calculateNodeRewardsEth_pred
      (fun mp2 => mp2.minipoolShare = Int.ediv (ethBudget g.networkState g.rollingRecord
        g.networkState.networkDetails.smoothingPoolBalance * mp2.attestationScore)
        (ethScores g.networkState g.rollingRecord).2.1)
      (fun pob mp2 out2 hc hq => by
        have hs := calcMinipoolBonus_spec hc
        dsimp only [] at hq ⊢
        rw [hs.2.1, hs.2.2.1]
        exact hq)
      (fun r T mp2 hq => hq)
      (fun mp2 hm => rfl)
      hres
    exact hpred k nsd hmem mp hmp

/-- The ETH-allocation output state of the C7 witness run. -/
def c7G2 : TreeGen :=
  match calculateEthRewards c10Gen true with
  | Except.ok g => g
  | Except.error _ => c10Gen

/-- The node smoothing entry the C7 witness run stores for node 1. -/
def c7Nsd : NodeSmoothingDetails :=
  (alookup c7G2.nodeDetailsSP 1).getD default

/-- The stored minipool record of the C7 witness run. -/
def c7StoredMp : MinipoolInfo :=
  c7Nsd.minipools.headD default

/-- Witness for C7: a concrete run with one scored minipool, whose stored
share is the floored apportionment of the two-step-floor share. -/
theorem c7_witness :
    c10Gen.networkState.networkDetails.smoothingPoolBalance ≠ 0 ∧
    c10Gen.rewardsFile.index ≠ 0 ∧
    (ethScores c10Gen.networkState c10Gen.rollingRecord).2.1 ≠ 0 ∧
    (ethScores c10Gen.networkState c10Gen.rollingRecord).2.2 ≠ 0 ∧
    c7StoredMp.minipoolShare = Int.ediv
      (Int.ediv (Int.ediv (c10Gen.networkState.networkDetails.smoothingPoolBalance *
          (ethScores c10Gen.networkState c10Gen.rollingRecord).2.1)
        (Int.ofNat (ethScores c10Gen.networkState c10Gen.rollingRecord).2.2)) oneEth *
        c7StoredMp.attestationScore)
      (ethScores c10Gen.networkState c10Gen.rollingRecord).2.1 :=
  ⟨by decide, by decide, by decide, by decide,
    (c7_theorem c10Gen c7G2 true rfl (by decide) (by decide) (by decide) (by decide)).2
      1 c7Nsd (by decide) c7StoredMp (by decide)⟩

/-! Claim C5: the dynamic fee floor of every bonus-receiving minipool stays
at or below the 14 percent cap. -/

/-- C5: every minipool that receives a bonus — in any single bonus
computation, and in the node details a successful smoothing-pool run stores
when the rolling record's scores carry no pre-existing bonus — has its
effective fee at most 0.14 at the 1e18 fixed-point scale; the source aborts
with an error instead of clamping whenever the raised fee would cross the
cap, so success bounds every awarded fee. -/
theorem c5_theorem {s : NetworkState} {rr : RollingRecord} {bal eps : Int} {ver : Nat}
    {out : Int × Int × Int × List (Nat × NodeSmoothingDetails)}
    (h : calculateNodeRewardsEth s rr bal eps ver = Except.ok out)
    (hnone : ∀ mp, mp ∈ rr.minipoolScores → mp.minipoolBonus = none) :
    (∀ pob mp out2, calcMinipoolBonus s pob mp = Except.ok out2 →
       ∀ b, out2.1.minipoolBonus = some b → out2.1.totalFee ≤ fourteenPercentEth) ∧
    ∀ k nsd, (k, nsd) ∈ out.2.2.2 → ∀ mp, mp ∈ nsd.minipools →
      ∀ b, mp.minipoolBonus = some b → mp.totalFee ≤ fourteenPercentEth := by
  refine ⟨fun pob mp out2 hc => (calcMinipoolBonus_spec hc).2.2.2.2.2.2.1, ?_⟩
  exact calculateNodeRewardsEth_pred
    (fun mp2 => ∀ b, mp2.minipoolBonus = some b → mp2.totalFee ≤ fourteenPercentEth)
    (fun pob mp2 out2 hc hq => (calcMinipoolBonus_spec hc).2.2.2.2.2.2.1)
    (fun r T mp2 hq => by
      intro b hb
      dsimp only [scaledMinipool] at hb ⊢
      cases hmb : mp2.minipoolBonus with
      | none => rw [hmb] at hb; simp at hb
      | some b0 => exact hq b0 hmb)
    (fun mp2 hm => by
      intro b hb
      have hm2 : mp2 ∈ List.filter (fun mp => !(getCheaters s mp.nodeAddress))
          rr.minipoolScores := hm
      have hn := hnone mp2 (List.mem_filter.mp hm2).1
      dsimp only [storedMinipool] at hb
      rw [hn] at hb
      simp at hb)
    h

/-- The on-chain minipool record of the C5 and C6 witness scenario: a 0.05
node fee, well below the dynamic floor. -/
def c6Mpd : MinipoolDetailsGo :=
  { address := 2, nodeAddress := 1, nodeFee := 5 * 10 ^ 16
    nodeDepositBalance := 0, penaltyCount := 0 }

/-- The scored minipool of the C5 and C6 witness scenario: eligible for
bonuses, with 1 ETH of consensus income. -/
def c6Mp : MinipoolInfo :=
  { address := 2, nodeAddress := 1, attestationScore := 10 ^ 18, attestationCount := 1
    consensusIncome := some (10 ^ 18), eligibleForBonuses := true, minipoolShare := 0
    minipoolBonus := none, totalFee := 5 * 10 ^ 16, nodeOperatorBond := 0 }

/-- The snapshot of the C5 and C6 witness scenario: one node at the full 10
percent of borrowed stake, so the fee floor is the full 0.14. -/
def c6State : NetworkState :=
  { nodeDetails := [⟨1, 0⟩]
    minipoolDetails := [c6Mpd]
    networkDetails :=
      { pendingRPLRewards := 10 ^ 18
        protocolDaoRewardsPercent := 5 * 10 ^ 17
        nodeOperatorRewardsPercent := 5 * 10 ^ 17
        trustedNodeOperatorRewardsPercent := 0
        intervalDurationSeconds := 100
        smoothingPoolBalance := 10 ^ 18 }
    oracleDaoMemberDetails := []
    rawNodeWeight := fun _ => 1
    percentOfBorrowedEthOf := fun _ => tenEth }

/-- The rolling record of the C5 and C6 witness scenario. -/
def c6RR : RollingRecord := ⟨0, [c6Mp]⟩

/-- The smoothing-pool distribution output of the C5 and C6 witness run:
the whole balance goes to the node as base share, so the remaining balance
for bonuses is zero and the bonus must be scaled down to zero. -/
def c6Out : Int × Int × Int × List (Nat × NodeSmoothingDetails) :=
  match calculateNodeRewardsEth c6State c6RR (10 ^ 18) 1 10 with
  | Except.ok o => o
  | Except.error _ => default

/-- The node smoothing entry the C5 and C6 witness run stores for node 1. -/
def c5Nsd : NodeSmoothingDetails :=
  (alookup c6Out.2.2.2 1).getD default

/-- The bonus-receiving minipool stored by the C5 and C6 witness run. -/
def c5Mp : MinipoolInfo :=
  c5Nsd.minipools.headD default

/-- Witness for C5: a concrete run whose stored minipool received a
(scaled-to-zero) bonus with its raised fee exactly at, and not above, the
0.14 cap. -/
theorem c5_witness :
    (∀ mp, mp ∈ c6RR.minipoolScores → mp.minipoolBonus = none) ∧
    c5Mp.minipoolBonus = some 0 ∧
    c5Mp.totalFee ≤ fourteenPercentEth :=
  ⟨by decide, by decide,
    (c5_theorem (show calculateNodeRewardsEth c6State c6RR (10 ^ 18) 1 10 =
        Except.ok c6Out from rfl) (by decide)).2
      1 c5Nsd (by decide) c5Mp (by decide) 0 (by decide)⟩

/-! Claim C6: the bonus downscaling when the remaining balance cannot cover
the total consensus bonus. -/

theorem ediv_mul_le_self (a : Int) {T : Int} (hT : 0 < T) : T * Int.ediv a T ≤ a := by
  have hra : 0 ≤ a % T := Int.emod_nonneg a (ne_of_gt hT)
  conv_rhs => rw [← Int.ediv_add_emod a T]
  exact le_add_of_nonneg_right hra

theorem ediv_add_ediv_le (a b : Int) {T : Int} (hT : 0 < T) :
    Int.ediv a T + Int.ediv b T ≤ Int.ediv (a + b) T := by
  refine (Int.le_ediv_iff_mul_le hT).mpr ?_
  have hmul : (Int.ediv a T + Int.ediv b T) * T = T * Int.ediv a T + T * Int.ediv b T := by
    ring
  rw [hmul]
  exact add_le_add (ediv_mul_le_self a hT) (ediv_mul_le_self b hT)

theorem sum_ediv_le (l : List Int) {T : Int} (hT : 0 < T) :
    (l.map (fun x => Int.ediv x T)).sum ≤ Int.ediv l.sum T := by
  induction l with
  | nil => exact le_of_eq (Int.zero_ediv T).symm
  | cons x rest ih =>
    rw [List.map_cons, List.sum_cons, List.sum_cons]
    exact le_trans (add_le_add_left ih _) (ediv_add_ediv_le x rest.sum hT)

theorem sum_map_mul_right (l : List Int) (r : Int) :
    (l.map (fun x => x * r)).sum = l.sum * r := by
  induction l with
  | nil => simp
  | cons x rest ih => simp [ih, add_mul]

theorem bonusMinipoolsLoop_nonneg {s : NetworkState} {pob : Int} :
    ∀ {l : List MinipoolInfo} {out : List MinipoolInfo × Int},
      bonusMinipoolsLoop s pob l = Except.ok out → 0 ≤ out.2 := by
  intro l
  induction l with
  | nil =>
    intro out h
    unfold bonusMinipoolsLoop at h
    cases h
    exact le_refl 0
  | cons mp rest ih =>
    intro out h
    unfold bonusMinipoolsLoop at h
    split at h
    case h_1 e heq => simp at h
    case h_2 mo b heq =>
      split at h
      case h_1 e2 heq2 => simp at h
      case h_2 ro bs heq2 =>
        cases h
        exact add_nonneg (calcMinipoolBonus_spec heq).2.2.2.2.1 (ih heq2)

theorem bonusNode_total {s : NetworkState} {nsd : NodeSmoothingDetails}
    {out : NodeSmoothingDetails × Int} (h : bonusNode s nsd = Except.ok out)
    (hz : nsd.bonusEth = 0) : out.1.bonusEth = out.2 ∧ 0 ≤ out.2 := by
  unfold bonusNode at h
  dsimp only [] at h
  split at h
  case isTrue =>
    cases h
    exact ⟨hz, le_refl 0⟩
  case isFalse =>
    split at h
    case h_1 e heq => simp at h
    case h_2 mps2 total heq =>
      cases h
      refine ⟨?_, bonusMinipoolsLoop_nonneg heq⟩
      dsimp only []
      rw [hz, zero_add]

theorem calculateNodeBonuses_total {s : NetworkState} :
    ∀ {l : List (Nat × NodeSmoothingDetails)}
      {out : List (Nat × NodeSmoothingDetails) × Int},
      calculateNodeBonuses s l = Except.ok out →
      (∀ k nsd, (k, nsd) ∈ l → nsd.bonusEth = 0) →
      sumBy (fun nsd => nsd.bonusEth) out.1 = out.2 ∧ 0 ≤ out.2 := by
  intro l
  induction l with
  | nil =>
    intro out h hz
    unfold calculateNodeBonuses at h
    cases h
    exact ⟨rfl, le_refl 0⟩
  | cons p rest ih =>
    obtain ⟨k0, nsd0⟩ := p
    intro out h hz
    unfold calculateNodeBonuses at h
    split at h
    case h_1 e heq => simp at h
    case h_2 no b heq =>
      split at h
      case h_1 e2 heq2 => simp at h
      case h_2 ro bs heq2 =>
        cases h
        have hn := bonusNode_total heq (hz k0 nsd0 (List.mem_cons_self _ _))
        have hr := ih heq2 (fun k2 n2 hm => hz k2 n2 (List.mem_cons_of_mem _ hm))
        refine ⟨?_, add_nonneg hn.2 hr.2⟩
        rw [sumBy_cons]
        dsimp only []
        rw [hn.1, hr.1]

theorem scaleBonuses_mem {r T : Int} {l : List (Nat × NodeSmoothingDetails)} {k : Nat}
    {nsd : NodeSmoothingDetails} (h : (k, nsd) ∈ scaleBonuses r T l) :
    ∃ nsd0, (k, nsd0) ∈ l ∧ nsd.bonusEth = Int.ediv (nsd0.bonusEth * r) T ∧
      nsd.minipools = nsd0.minipools.map (scaledMinipool r T) := by
  unfold scaleBonuses at h
  rcases List.mem_map.mp h with ⟨p, hp, heq⟩
  have hk := Prod.mk.injEq .. |>.mp heq
  refine ⟨p.2, ?_, ?_, ?_⟩
  · rw [← hk.1, Prod.mk.eta]
    exact hp
  · rw [← hk.2]
  · rw [← hk.2]
    rfl

theorem awardBonuses_sumBonus (l : List (Nat × NodeSmoothingDetails)) :
    sumBy (fun nsd => nsd.bonusEth) (awardBonuses l) =
      sumBy (fun nsd => nsd.bonusEth) l := by
  unfold awardBonuses sumBy
  rw [List.map_map]
  rfl

theorem scaleBonuses_sumBonus (r T : Int) (l : List (Nat × NodeSmoothingDetails)) :
    sumBy (fun nsd => nsd.bonusEth) (scaleBonuses r T l) =
      (l.map (fun p => Int.ediv (p.2.bonusEth * r) T)).sum := by
  unfold scaleBonuses sumBy
  rw [List.map_map]
  rfl

theorem scaled_sum_le {r T : Int} (l : List (Nat × NodeSmoothingDetails))
    (hsum : sumBy (fun nsd => nsd.bonusEth) l = T) (hT : 0 < T) (hr : 0 ≤ r) :
    sumBy (fun nsd => nsd.bonusEth) (scaleBonuses r T l) ≤ r := by
  rw [scaleBonuses_sumBonus]
  have h1 : (l.map (fun p => Int.ediv (p.2.bonusEth * r) T)).sum ≤
      Int.ediv ((l.map (fun p => p.2.bonusEth * r)).sum) T := by
    have hs := sum_ediv_le (l.map (fun p => p.2.bonusEth * r)) hT
    rw [List.map_map] at hs
    exact hs
  have h2 : (l.map (fun p => p.2.bonusEth * r)).sum = T * r := by
    have ha : (l.map (fun p => p.2.bonusEth * r)).sum =
        (l.map (fun p => p.2.bonusEth)).sum * r := by
      have hb := sum_map_mul_right (l.map (fun p => p.2.bonusEth)) r
      rw [List.map_map] at hb
      exact hb
    rw [ha, show (l.map (fun p => p.2.bonusEth)).sum = T from hsum, mul_comm]
  rw [h2] at h1
  exact le_trans h1 (le_of_eq (Int.mul_ediv_cancel_left r (ne_of_gt hT)))

/-- C6: in a successful distribution on ruleset v10 where the remaining
balance after base shares cannot cover the total consensus bonus (and is
not negative), the returned bonus scalar is floor(remaining * 1e18 /
totalBonus), the stored details are the bonus-awarded downscaling of the
bonus-stage output, every downscaled node carries
floor(bonus * remaining / totalBonus) — the direct ratio, likewise for each
of its minipools' bonuses — and the downscaled bonuses sum to at most the
remaining balance. -/
theorem c6_theorem {s : NetworkState} {rr : RollingRecord} {bal eps : Int} {ver : Nat}
    {out : Int × Int × Int × List (Nat × NodeSmoothingDetails)}
    {nds2 : List (Nat × NodeSmoothingDetails)} {T : Int}
    (h : calculateNodeRewardsEth s rr bal eps ver = Except.ok out)
    (hts : (ethScores s rr).2.1 ≠ 0) (hac : (ethScores s rr).2.2 ≠ 0)
    (hver : 10 ≤ ver)
    (hcb : calculateNodeBonuses s (ethBuilt s rr bal) = Except.ok (nds2, T))
    (hlt : bal - ethBase s rr bal < T)
    (hrem : 0 ≤ bal - ethBase s rr bal) :
    out.2.2.1 = Int.ediv ((bal - ethBase s rr bal) * oneEth) T ∧
    out.2.2.2 = awardBonuses (scaleBonuses (bal - ethBase s rr bal) T nds2) ∧
    (∀ k nsd, (k, nsd) ∈ scaleBonuses (bal - ethBase s rr bal) T nds2 →
      ∃ nsd0, (k, nsd0) ∈ nds2 ∧
        nsd.bonusEth = Int.ediv (nsd0.bonusEth * (bal - ethBase s rr bal)) T ∧
        nsd.minipools = nsd0.minipools.map
          (scaledMinipool (bal - ethBase s rr bal) T)) ∧
    sumBy (fun nsd => nsd.bonusEth) out.2.2.2 ≤ bal - ethBase s rr bal := by
  obtain ⟨p, hstage, hfin⟩ := calculateNodeRewardsEth_main h hts hac
  unfold ethBonusStage at hstage
  rw [if_pos hver, hcb] at hstage
  dsimp only [] at hstage
  rw [if_pos hlt] at hstage
  cases hstage
  obtain ⟨hdelta, hps, hsc, hbr⟩ := ethFinalize_ok hfin
  rcases hbr with ⟨hv, hop, hnds⟩ | ⟨hv, hop, hnds⟩
  · have hT : 0 < T := lt_of_le_of_lt hrem hlt
    have hz : ∀ k nsd, (k, nsd) ∈ ethBuilt s rr bal → nsd.bonusEth = 0 :=
      buildNodeDetails_bonusEth s (getCheaters s) (ethBudget s rr bal)
        (ethScores s rr).2.1 (ethScores s rr).1 []
        (by intro k nsd hm; simp at hm)
    have htot := calculateNodeBonuses_total hcb hz
    refine ⟨?_, ?_, ?_, ?_⟩
    · rw [hsc]
    · rw [hnds]
    · intro k nsd hm
      exact scaleBonuses_mem hm
    · rw [hnds, awardBonuses_sumBonus]
      exact scaled_sum_le nds2 htot.1 hT hrem
  · exact absurd hver (not_le.mpr hv)

/-- The bonus-stage output of the C6 witness run. -/
def c6Pair : List (Nat × NodeSmoothingDetails) × Int :=
  match calculateNodeBonuses c6State (ethBuilt c6State c6RR (10 ^ 18)) with
  | Except.ok p => p
  | Except.error _ => ([], 0)

/-- The bonus-stage node details of the C6 witness run. -/
def c6Nds2 : List (Nat × NodeSmoothingDetails) := c6Pair.1

/-- The total consensus bonus of the C6 witness run. -/
def c6T : Int := c6Pair.2

/-- Witness for C6 at a concrete run whose remaining balance (zero) is
smaller than the total consensus bonus, so every bonus is scaled to zero
and their sum stays within the remaining balance. -/
theorem c6_witness :
    (0 : Int) ≤ 10 ^ 18 - ethBase c6State c6RR (10 ^ 18) ∧
    10 ^ 18 - ethBase c6State c6RR (10 ^ 18) < c6T ∧
    c6Out.2.2.1 = Int.ediv ((10 ^ 18 - ethBase c6State c6RR (10 ^ 18)) * oneEth) c6T ∧
    sumBy (fun nsd => nsd.bonusEth) c6Out.2.2.2 ≤
      10 ^ 18 - ethBase c6State c6RR (10 ^ 18) := by
  have H := c6_theorem (show calculateNodeRewardsEth c6State c6RR (10 ^ 18) 1 10 =
      Except.ok c6Out from rfl) (by decide) (by decide) (by decide)
    (show calculateNodeBonuses c6State (ethBuilt c6State c6RR (10 ^ 18)) =
      Except.ok (c6Nds2, c6T) from rfl) (by decide) (by decide)
  exact ⟨by decide, by decide, H.1, H.2.2.2⟩

/-! Accumulator-map evolution of the three bump-style loop bodies, and
generic propagation of map invariants through the allocation phases. -/

theorem alookup_append_single_ne {β : Type} {k k2 : Nat} (l : List (Nat × β)) (v : β)
    (h : k2 ≠ k) : alookup (l ++ [(k, v)]) k2 = alookup l k2 := by
  rw [alookup_append]
  cases hx : alookup l k2 with
  | some w => rfl
  | none => exact alookup_singleton_ne (fun he => h he.symm) v

theorem bump_nodeRewards {g : TreeGen} {a net : Nat} {gnr : TreeGen × NodeReward}
    (hx : getOrCreateNodeReward g a net = Except.ok gnr) (nr2 : NodeReward)
    (bump : NetworkReward → NetworkReward) :
    (alookup g.nodeRewards a = some gnr.2 ∧
      (bumpNodeReward gnr.1 a nr2 bump).nodeRewards = aset g.nodeRewards a nr2) ∨
    (alookup g.nodeRewards a = none ∧ gnr.2 = NodeReward.new gnr.2.network a ∧
      (bumpNodeReward gnr.1 a nr2 bump).nodeRewards = g.nodeRewards ++ [(a, nr2)]) := by
  obtain ⟨hcore, hnet, hcases⟩ := getOrCreateNodeReward_ok hx
  have hbs := (bumpNodeReward_spec gnr.1 a nr2 bump).2.1
  rcases hcases with ⟨hl, hnr⟩ | ⟨hl, hnew, hnr⟩
  · left
    refine ⟨hl, ?_⟩
    rw [hbs, hnr]
  · right
    refine ⟨hl, hnew, ?_⟩
    rw [hbs, hnr]
    exact aset_append_last _ _ ((alookup_eq_none_iff _ _).mp hl)

theorem bump_networkRewards {g : TreeGen} {a net : Nat} {gnr : TreeGen × NodeReward}
    (hx : getOrCreateNodeReward g a net = Except.ok gnr) (nr2 : NodeReward)
    (bump : NetworkReward → NetworkReward) :
    (∃ w, alookup g.networkRewards nr2.network = some w ∧
      (bumpNodeReward gnr.1 a nr2 bump).networkRewards =
        aset g.networkRewards nr2.network (bump w)) ∨
    (alookup g.networkRewards nr2.network = none ∧
      (bumpNodeReward gnr.1 a nr2 bump).networkRewards =
        g.networkRewards ++ [(nr2.network, bump (NetworkReward.new nr2.network))]) := by
  obtain ⟨hcore, hnet, hcases⟩ := getOrCreateNodeReward_ok hx
  have hbs := (bumpNodeReward_spec gnr.1 a nr2 bump).2.2.2.2
  rw [hnet] at hbs
  exact hbs

theorem rplCollateralPhase_mapInv {g : TreeGen} {pr pd tnr : Int} {out : TreeGen × Int}
    (h : rplCollateralPhase g pr pd tnr = Except.ok out)
    (P : List (Nat × NodeReward) → List (Nat × NetworkReward) → Prop)
    (hstep : ∀ gA nd gB, nd ∈ g.networkState.nodeDetails →
      collateralStep tnr (g.networkState.calculateNodeWeights).2
        (g.networkState.calculateNodeWeights).1 gA nd = Except.ok gB →
      P gA.nodeRewards gA.networkRewards → P gB.nodeRewards gB.networkRewards)
    (hp : P g.nodeRewards g.networkRewards) :
    P out.1.nodeRewards out.1.networkRewards := by
  unfold rplCollateralPhase at h
  dsimp only [] at h
  split at h
  case isTrue hw =>
    split at h
    case h_1 e heq => simp at h
    case h_2 gB heq =>
      split at h
      case isTrue => simp at h
      case isFalse hd =>
        cases h
        exact runList_ok_inv (fun gX => P gX.nodeRewards gX.networkRewards)
          g.networkState.nodeDetails
          (fun gA nd hmem gB2 hs hpA => hstep gA nd gB2 hmem hs hpA)
          _ gB heq hp
  case isFalse hw =>
    cases h
    exact hp

theorem rplOdaoPhase_mapInv {g : TreeGen} {pr pd : Int} {g2 : TreeGen}
    (h : rplOdaoPhase g pr pd = Except.ok g2)
    (P : List (Nat × NodeReward) → List (Nat × NetworkReward) → Prop)
    (hstep : ∀ tO tT iD sT gA d gB, d ∈ g.networkState.oracleDaoMemberDetails →
      odaoStep tO tT iD sT gA d = Except.ok gB →
      P gA.nodeRewards gA.networkRewards → P gB.nodeRewards gB.networkRewards)
    (hp : P g.nodeRewards g.networkRewards) : P g2.nodeRewards g2.networkRewards := by
  unfold rplOdaoPhase at h
  dsimp only [] at h
  split at h
  case h_1 e heq => simp at h
  case h_2 gB heq =>
    split at h
    case isTrue => simp at h
    case isFalse hd =>
      cases h
      exact runList_ok_inv (fun gX => P gX.nodeRewards gX.networkRewards)
        g.networkState.oracleDaoMemberDetails
        (fun gA d hmem gB2 hs hpA => hstep _ _ _ _ gA d gB2 hmem hs hpA)
        g gB heq hp

theorem calculateRplRewards_mapInv {g g2 : TreeGen}
    (h : calculateRplRewards g = Except.ok g2)
    (P : List (Nat × NodeReward) → List (Nat × NetworkReward) → Prop)
    (hcol : ∀ B gA nd gB, nd ∈ g.networkState.nodeDetails →
      collateralStep B (g.networkState.calculateNodeWeights).2
        (g.networkState.calculateNodeWeights).1 gA nd = Except.ok gB →
      P gA.nodeRewards gA.networkRewards → P gB.nodeRewards gB.networkRewards)
    (hoda : ∀ tO tT iD sT gA d gB, d ∈ g.networkState.oracleDaoMemberDetails →
      odaoStep tO tT iD sT gA d = Except.ok gB →
      P gA.nodeRewards gA.networkRewards → P gB.nodeRewards gB.networkRewards)
    (hp : P g.nodeRewards g.networkRewards) : P g2.nodeRewards g2.networkRewards := by
  unfold calculateRplRewards at h
  dsimp only [] at h
  split at h
  case isTrue => simp at h
  case isFalse hpz =>
    split at h
    case h_1 e heq => simp at h
    case h_2 gB pd2 heq =>
      have hns : gB.networkState = g.networkState :=
        (rplCollateralPhase_ok heq).1.1
      have hmid := rplCollateralPhase_mapInv heq P
        (fun gA nd gB2 hm hs hpA => hcol _ gA nd gB2 hm hs hpA) hp
      have hstep2 : ∀ tO tT iD sT gA d gB2, d ∈ gB.networkState.oracleDaoMemberDetails →
          odaoStep tO tT iD sT gA d = Except.ok gB2 →
          P gA.nodeRewards gA.networkRewards → P gB2.nodeRewards gB2.networkRewards := by
        intro tO tT iD sT gA d gB2 hm hs hpA
        rw [hns] at hm
        exact hoda tO tT iD sT gA d gB2 hm hs hpA
      exact rplOdaoPhase_mapInv h P hstep2 hmid

theorem calculateEthRewards_mapInv {g g2 : TreeGen} {cb : Bool}
    (h : calculateEthRewards g cb = Except.ok g2)
    (P : List (Nat × NodeReward) → List (Nat × NetworkReward) → Prop)
    (hstep : ∀ gA entry gB, ethMapStep gA entry = Except.ok gB →
      P gA.nodeRewards gA.networkRewards → P gB.nodeRewards gB.networkRewards)
    (hp : P g.nodeRewards g.networkRewards) : P g2.nodeRewards g2.networkRewards := by
  unfold calculateEthRewards at h
  dsimp only [] at h
  split at h
  case isTrue hz =>
    cases h
    exact hp
  case isFalse hz =>
    split at h
    case isTrue hi =>
      cases h
      exact hp
    case isFalse hi =>
      split at h
      case h_1 e heq => simp at h
      case h_2 u heq =>
        split at h
        case h_1 e2 heq2 => simp at h
        case h_2 ps opEth bs nds heq2 =>
          split at h
          case h_1 e3 heq3 => simp at h
          case h_2 gM heq3 =>
            cases h
            dsimp only []
            refine runList_ok_inv (fun gX => P gX.nodeRewards gX.networkRewards) nds
              (fun gA entry hm gB hs hpA => hstep gA entry gB hs hpA) _ gM heq3 ?_
            split
            · exact hp
            · exact hp

theorem allocPhase_mapInv {g g3 : TreeGen} (h : allocPhase g = Except.ok g3)
    (P : List (Nat × NodeReward) → List (Nat × NetworkReward) → Prop)
    (hcol : ∀ B gA nd gB, nd ∈ g.networkState.nodeDetails →
      collateralStep B (g.networkState.calculateNodeWeights).2
        (g.networkState.calculateNodeWeights).1 gA nd = Except.ok gB →
      P gA.nodeRewards gA.networkRewards → P gB.nodeRewards gB.networkRewards)
    (hoda : ∀ tO tT iD sT gA d gB, d ∈ g.networkState.oracleDaoMemberDetails →
      odaoStep tO tT iD sT gA d = Except.ok gB →
      P gA.nodeRewards gA.networkRewards → P gB.nodeRewards gB.networkRewards)
    (heth : ∀ gA entry gB, ethMapStep gA entry = Except.ok gB →
      P gA.nodeRewards gA.networkRewards → P gB.nodeRewards gB.networkRewards)
    (hp : P g.nodeRewards g.networkRewards) : P g3.nodeRewards g3.networkRewards := by
  obtain ⟨g2, hrpl, heth2⟩ := allocPhase_ok h
  have h1 := calculateRplRewards_mapInv hrpl P
    (fun B gA nd gB hm hs hpA => hcol B gA nd gB hm hs hpA)
    (fun tO tT iD sT gA d gB hm hs hpA => hoda tO tT iD sT gA d gB hm hs hpA) hp
  exact calculateEthRewards_mapInv heth2 P heth h1

/-! Claim C4: cheater exclusion. -/

theorem bump_alookup_other {g : TreeGen} {a net : Nat} {gnr : TreeGen × NodeReward}
    (hx : getOrCreateNodeReward g a net = Except.ok gnr) (nr2 : NodeReward)
    (bump : NetworkReward → NetworkReward) {addr : Nat} (hne : addr ≠ a) :
    alookup (bumpNodeReward gnr.1 a nr2 bump).nodeRewards addr =
      alookup g.nodeRewards addr := by
  rcases bump_nodeRewards hx nr2 bump with ⟨hl, hset⟩ | ⟨hl, hnew, hset⟩
  · rw [hset, alookup_aset_ne _ _ hne]
  · rw [hset, alookup_append_single_ne _ _ hne]

theorem bump_alookup_self {g : TreeGen} {a net : Nat} {gnr : TreeGen × NodeReward}
    (hx : getOrCreateNodeReward g a net = Except.ok gnr) (nr2 : NodeReward)
    (bump : NetworkReward → NetworkReward) :
    alookup (bumpNodeReward gnr.1 a nr2 bump).nodeRewards a = some nr2 := by
  rcases bump_nodeRewards hx nr2 bump with ⟨hl, hset⟩ | ⟨hl, hnew, hset⟩
  · rw [hset, alookup_aset_self, hl]
    rfl
  · rw [hset, alookup_append_of_none hl]
    exact alookup_singleton_self _ _

theorem collateralStep_collatZero {B W : Int} {nw : Nat → Int} {addr : Nat}
    (hwz : nw addr = 0) {gA : TreeGen} {nd : NodeDetailsGo} {gB : TreeGen}
    (hs : collateralStep B W nw gA nd = Except.ok gB)
    (hp : ∀ nr, alookup gA.nodeRewards addr = some nr → nr.collateralRpl = 0) :
    ∀ nr, alookup gB.nodeRewards addr = some nr → nr.collateralRpl = 0 := by
  rcases collateralStep_cases hs with ⟨_, rfl⟩ | ⟨hpos, gnr, hx, rfl⟩
  · exact hp
  · by_cases haddr : nd.nodeAddress = addr
    · rw [haddr] at hpos
      unfold calculateNodeRplRewards at hpos
      rw [hwz] at hpos
      simp at hpos
    · intro nr hnr
      rw [bump_alookup_other hx _ _ (fun he => haddr he.symm)] at hnr
      exact hp nr hnr

theorem odaoStep_collatPres {tO tT iD sT : Int} {addr : Nat} {gA : TreeGen}
    {d : OracleDaoMemberDetails} {gB : TreeGen}
    (hs : odaoStep tO tT iD sT gA d = Except.ok gB)
    (hp : ∀ nr, alookup gA.nodeRewards addr = some nr → nr.collateralRpl = 0) :
    ∀ nr, alookup gB.nodeRewards addr = some nr → nr.collateralRpl = 0 := by
  rcases odaoStep_cases hs with ⟨gnr, hx, rfl⟩
  intro nr hnr
  by_cases haddr : d.address = addr
  · rw [← haddr] at hnr
    rw [bump_alookup_self hx _ _] at hnr
    cases hnr
    obtain ⟨hcore, hnet, hcases⟩ := getOrCreateNodeReward_ok hx
    rcases hcases with ⟨hl, -⟩ | ⟨hl, hnew, -⟩
    · exact hp gnr.2 (haddr ▸ hl)
    · rw [hnew]
      rfl
  · rw [bump_alookup_other hx _ _ (fun he => haddr he.symm)] at hnr
    exact hp nr hnr

theorem ethMapStep_collatPres {addr : Nat} {gA : TreeGen}
    {entry : Nat × NodeSmoothingDetails} {gB : TreeGen}
    (hs : ethMapStep gA entry = Except.ok gB)
    (hp : ∀ nr, alookup gA.nodeRewards addr = some nr → nr.collateralRpl = 0) :
    ∀ nr, alookup gB.nodeRewards addr = some nr → nr.collateralRpl = 0 := by
  rcases ethMapStep_cases hs with ⟨_, rfl⟩ | ⟨hpos, gnr, hx, rfl⟩
  · exact hp
  · intro nr hnr
    by_cases haddr : entry.1 = addr
    · rw [← haddr] at hnr
      rw [bump_alookup_self hx _ _] at hnr
      cases hnr
      obtain ⟨hcore, hnet, hcases⟩ := getOrCreateNodeReward_ok hx
      rcases hcases with ⟨hl, -⟩ | ⟨hl, hnew, -⟩
      · exact hp gnr.2 (haddr ▸ hl)
      · rw [hnew]
        rfl
    · rw [bump_alookup_other hx _ _ (fun he => haddr he.symm)] at hnr
      exact hp nr hnr

/-- C4: a listed node owning a minipool with at least 3 penalties is placed
in the cheater set, its minipools never enter the smoothing-pool scoring
set, its RPIP-30 collateral weight is zero, and across a whole allocation
run starting from an empty entry its node-reward entry never accumulates
any collateral RPL. -/
theorem c4_theorem {g g3 : TreeGen} {addr : Nat}
    (h : allocPhase g = Except.ok g3)
    (hinit : alookup g.nodeRewards addr = none)
    (hlisted : g.networkState.nodeDetails.any (fun nd => nd.nodeAddress = addr) = true)
    (hpen : (minipoolDetailsByNode g.networkState addr).any
      (fun mpd => decide (3 ≤ mpd.penaltyCount)) = true) :
    getCheaters g.networkState addr = true ∧
    (∀ mp, mp ∈ (ethScores g.networkState g.rollingRecord).1 → mp.nodeAddress ≠ addr) ∧
    (g.networkState.calculateNodeWeights).1 addr = 0 ∧
    ∀ nr, alookup g3.nodeRewards addr = some nr → nr.collateralRpl = 0 := by
  have hch : getCheaters g.networkState addr = true := by
    unfold getCheaters
    rw [hlisted, hpen]
    rfl
  have hw : (g.networkState.calculateNodeWeights).1 addr = 0 := by
    unfold NetworkState.calculateNodeWeights
    dsimp only []
    simp [hch]
  refine ⟨hch, ?_, hw, ?_⟩
  · intro mp hm hc
    have hm2 : mp ∈ List.filter
        (fun mp2 => !(getCheaters g.networkState mp2.nodeAddress))
        g.rollingRecord.minipoolScores := hm
    have hflt := (List.mem_filter.mp hm2).2
    rw [hc, hch] at hflt
    simp at hflt
  · exact allocPhase_mapInv h
      (fun nrs _ => ∀ nr, alookup nrs addr = some nr → nr.collateralRpl = 0)
      (fun B gA nd gB hm hs hpA => collateralStep_collatZero hw hs hpA)
      (fun tO tT iD sT gA d gB hm hs hpA => odaoStep_collatPres hs hpA)
      (fun gA entry gB hs hpA => ethMapStep_collatPres hs hpA)
      (fun nr hnr => by rw [hinit] at hnr; simp at hnr)

/-- The cheater's penalized minipool record of the C4 witness. -/
def c4Mpd : MinipoolDetailsGo :=
  { address := 20, nodeAddress := 2, nodeFee := 10 ^ 17
    nodeDepositBalance := 8 * 10 ^ 18, penaltyCount := 3 }

/-- The cheater's scored minipool of the C4 witness rolling record. -/
def c4Mp : MinipoolInfo :=
  { address := 20, nodeAddress := 2, attestationScore := 10 ^ 18, attestationCount := 1
    consensusIncome := none, eligibleForBonuses := false, minipoolShare := 0
    minipoolBonus := none, totalFee := 0, nodeOperatorBond := 0 }

/-- The C4 witness snapshot: node 1 honest, node 2 a cheater with a
penalized minipool. -/
def c4State : NetworkState :=
  { nodeDetails := [⟨1, 0⟩, ⟨2, 0⟩]
    minipoolDetails := [c4Mpd]
    networkDetails :=
      { pendingRPLRewards := 10 ^ 18
        protocolDaoRewardsPercent := 5 * 10 ^ 17
        nodeOperatorRewardsPercent := 5 * 10 ^ 17
        trustedNodeOperatorRewardsPercent := 0
        intervalDurationSeconds := 100
        smoothingPoolBalance := 0 }
    oracleDaoMemberDetails := []
    rawNodeWeight := fun _ => 1
    percentOfBorrowedEthOf := fun _ => 0 }

/-- The C4 witness run state. -/
def c4Gen : TreeGen :=
  newTreeGenerator 10 1 c4State ⟨0, [c4Mp]⟩ 1000 (fun _ => Except.ok true) (Except.ok ())

/-- The C4 witness allocation output. -/
def c4G3 : TreeGen :=
  match allocPhase c4Gen with
  | Except.ok g => g
  | Except.error _ => c4Gen

/-- Witness for C4 at a concrete run with a penalized node: the hypotheses
hold and the node is flagged with zero collateral weight. -/
theorem c4_witness :
    (alookup c4Gen.nodeRewards 2 = none ∧
      c4Gen.networkState.nodeDetails.any (fun nd => nd.nodeAddress = 2) = true ∧
      (minipoolDetailsByNode c4Gen.networkState 2).any
        (fun mpd => decide (3 ≤ mpd.penaltyCount)) = true) ∧
    getCheaters c4Gen.networkState 2 = true ∧
    (c4Gen.networkState.calculateNodeWeights).1 2 = 0 := by
  have H := c4_theorem (show allocPhase c4Gen = Except.ok c4G3 from rfl)
    (show alookup c4Gen.nodeRewards 2 = none from rfl) (by decide) (by decide)
  exact ⟨⟨by decide, by decide, by decide⟩, H.1, H.2.2.1⟩

/-! The allocation phases never touch the rewards file's materialized
lists: those are only filled at the end of generateTree. -/

theorem rplCollateralPhase_lists {g : TreeGen} {pr pd tnr : Int} {out : TreeGen × Int}
    (h : rplCollateralPhase g pr pd tnr = Except.ok out) :
    out.1.rewardsFile.nodeRewardsList = g.rewardsFile.nodeRewardsList ∧
    out.1.rewardsFile.networkRewardsList = g.rewardsFile.networkRewardsList := by
  unfold rplCollateralPhase at h
  dsimp only [] at h
  split at h
  case isTrue hw =>
    split at h
    case h_1 e heq => simp at h
    case h_2 gB heq =>
      split at h
      case isTrue => simp at h
      case isFalse hd =>
        cases h
        have hrf := (runList_collateral_sameCore heq).2.2.1
        dsimp only []
        constructor
        · rw [hrf]
        · rw [hrf]
  case isFalse hw =>
    cases h
    exact ⟨rfl, rfl⟩

theorem rplOdaoPhase_lists {g : TreeGen} {pr pd : Int} {g2 : TreeGen}
    (h : rplOdaoPhase g pr pd = Except.ok g2) :
    g2.rewardsFile.nodeRewardsList = g.rewardsFile.nodeRewardsList ∧
    g2.rewardsFile.networkRewardsList = g.rewardsFile.networkRewardsList := by
  unfold rplOdaoPhase at h
  dsimp only [] at h
  split at h
  case h_1 e heq => simp at h
  case h_2 gB heq =>
    split at h
    case isTrue => simp at h
    case isFalse hd =>
      cases h
      have hrf := (runList_odao_sameCore heq).2.2.1
      dsimp only []
      constructor
      · rw [hrf]
      · rw [hrf]

theorem calculateRplRewards_lists {g g2 : TreeGen}
    (h : calculateRplRewards g = Except.ok g2) :
    g2.rewardsFile.nodeRewardsList = g.rewardsFile.nodeRewardsList ∧
    g2.rewardsFile.networkRewardsList = g.rewardsFile.networkRewardsList := by
  unfold calculateRplRewards at h
  dsimp only [] at h
  split at h
  case isTrue => simp at h
  case isFalse hpz =>
    split at h
    case h_1 e heq => simp at h
    case h_2 gB pd2 heq =>
      have h1 := rplCollateralPhase_lists heq
      have h2 := rplOdaoPhase_lists h
      exact ⟨h2.1.trans h1.1, h2.2.trans h1.2⟩

theorem calculateEthRewards_lists {g g2 : TreeGen} {cb : Bool}
    (h : calculateEthRewards g cb = Except.ok g2) :
    g2.rewardsFile.nodeRewardsList = g.rewardsFile.nodeRewardsList ∧
    g2.rewardsFile.networkRewardsList = g.rewardsFile.networkRewardsList := by
  unfold calculateEthRewards at h
  dsimp only [] at h
  split at h
  case isTrue hz =>
    cases h
    exact ⟨rfl, rfl⟩
  case isFalse hz =>
    split at h
    case isTrue hi =>
      cases h
      exact ⟨rfl, rfl⟩
    case isFalse hi =>
      split at h
      case h_1 e heq => simp at h
      case h_2 u heq =>
        split at h
        case h_1 e2 heq2 => simp at h
        case h_2 ps opEth bs nds heq2 =>
          split at h
          case h_1 e3 heq3 => simp at h
          case h_2 gM heq3 =>
            cases h
            have hrf := (runList_ethMap_sameCore heq3).2.2.1
            dsimp only []
            rw [hrf]
            constructor
            · split <;> rfl
            · split <;> rfl

theorem allocPhase_lists {g g3 : TreeGen} (h : allocPhase g = Except.ok g3) :
    g3.rewardsFile.nodeRewardsList = g.rewardsFile.nodeRewardsList ∧
    g3.rewardsFile.networkRewardsList = g.rewardsFile.networkRewardsList := by
  obtain ⟨g2, hrpl, heth⟩ := allocPhase_ok h
  have h1 := calculateRplRewards_lists hrpl
  have h2 := calculateEthRewards_lists heth
  exact ⟨h2.1.trans h1.1, h2.2.trans h1.2⟩

/-! Claim C9: entries in the node-reward accumulator. -/

/-- Membership after the shared write-back: an entry of the updated node
map is an old entry or the freshly written one. -/
theorem bump_mem {g : TreeGen} {a net : Nat} {gnr : TreeGen × NodeReward}
    (hx : getOrCreateNodeReward g a net = Except.ok gnr) (nr2 : NodeReward)
    (bump : NetworkReward → NetworkReward) {k : Nat} {nr : NodeReward}
    (hm : (k, nr) ∈ (bumpNodeReward gnr.1 a nr2 bump).nodeRewards) :
    (k, nr) ∈ g.nodeRewards ∨ (k, nr) = (a, nr2) := by
  rcases bump_nodeRewards hx nr2 bump with ⟨hl, hset⟩ | ⟨hl, hnew, hset⟩
  · rw [hset] at hm
    exact mem_aset hm
  · rw [hset] at hm
    rcases List.mem_append.mp hm with h1 | h1
    · exact Or.inl h1
    · exact Or.inr (List.mem_singleton.mp h1)

theorem collateralStep_entryPres {s : NetworkState} {B W : Int} {nw : Nat → Int}
    {gA : TreeGen} {nd : NodeDetailsGo} {gB : TreeGen}
    (hs : collateralStep B W nw gA nd = Except.ok gB)
    (hp : ∀ k nr, (k, nr) ∈ gA.nodeRewards → 0 < nr.collateralRpl ∨
      0 < nr.oracleDaoRpl ∨ 0 < nr.smoothingPoolEth ∨
      s.oracleDaoMemberDetails.any (fun d => d.address = k) = true) :
    ∀ k nr, (k, nr) ∈ gB.nodeRewards → 0 < nr.collateralRpl ∨
      0 < nr.oracleDaoRpl ∨ 0 < nr.smoothingPoolEth ∨
      s.oracleDaoMemberDetails.any (fun d => d.address = k) = true := by
  rcases collateralStep_cases hs with ⟨_, rfl⟩ | ⟨hpos, gnr, hx, rfl⟩
  · exact hp
  · intro k nr hm
    rcases bump_mem hx _ _ hm with h1 | h1
    · exact hp k nr h1
    · have hk := Prod.mk.injEq .. |>.mp h1
      obtain ⟨hcore, hnet, hcases⟩ := getOrCreateNodeReward_ok hx
      rcases hcases with ⟨hl, -⟩ | ⟨hl, hnew, -⟩
      · rcases hp nd.nodeAddress gnr.2 (alookup_mem hl) with hc | hc | hc | hc
        · left
          rw [hk.2]
          exact add_pos hc hpos
        · right; left
          rw [hk.2]
          exact hc
        · right; right; left
          rw [hk.2]
          exact hc
        · right; right; right
          rw [hk.1]
          exact hc
      · left
        rw [hk.2, hnew]
        show (0 : Int) < 0 + calculateNodeRplRewards B (nw nd.nodeAddress) W
        rw [zero_add]
        exact hpos

theorem odaoStep_entryPres {s : NetworkState} {tO tT iD sT : Int} {gA : TreeGen}
    {d : OracleDaoMemberDetails} {gB : TreeGen}
    (hmem : d ∈ s.oracleDaoMemberDetails)
    (hs : odaoStep tO tT iD sT gA d = Except.ok gB)
    (hp : ∀ k nr, (k, nr) ∈ gA.nodeRewards → 0 < nr.collateralRpl ∨
      0 < nr.oracleDaoRpl ∨ 0 < nr.smoothingPoolEth ∨
      s.oracleDaoMemberDetails.any (fun d2 => d2.address = k) = true) :
    ∀ k nr, (k, nr) ∈ gB.nodeRewards → 0 < nr.collateralRpl ∨
      0 < nr.oracleDaoRpl ∨ 0 < nr.smoothingPoolEth ∨
      s.oracleDaoMemberDetails.any (fun d2 => d2.address = k) = true := by
  rcases odaoStep_cases hs with ⟨gnr, hx, rfl⟩
  intro k nr hm
  rcases bump_mem hx _ _ hm with h1 | h1
  · exact hp k nr h1
  · have hk := Prod.mk.injEq .. |>.mp h1
    right; right; right
    rw [hk.1]
    exact List.any_eq_true.mpr ⟨d, hmem, by simp⟩

theorem ethMapStep_entryPres {s : NetworkState} {gA : TreeGen}
    {entry : Nat × NodeSmoothingDetails} {gB : TreeGen}
    (hs : ethMapStep gA entry = Except.ok gB)
    (hp : ∀ k nr, (k, nr) ∈ gA.nodeRewards → 0 < nr.collateralRpl ∨
      0 < nr.oracleDaoRpl ∨ 0 < nr.smoothingPoolEth ∨
      s.oracleDaoMemberDetails.any (fun d => d.address = k) = true) :
    ∀ k nr, (k, nr) ∈ gB.nodeRewards → 0 < nr.collateralRpl ∨
      0 < nr.oracleDaoRpl ∨ 0 < nr.smoothingPoolEth ∨
      s.oracleDaoMemberDetails.any (fun d => d.address = k) = true := by
  rcases ethMapStep_cases hs with ⟨_, rfl⟩ | ⟨hpos, gnr, hx, rfl⟩
  · exact hp
  · intro k nr hm
    rcases bump_mem hx _ _ hm with h1 | h1
    · exact hp k nr h1
    · have hk := Prod.mk.injEq .. |>.mp h1
      obtain ⟨hcore, hnet, hcases⟩ := getOrCreateNodeReward_ok hx
      rcases hcases with ⟨hl, -⟩ | ⟨hl, hnew, -⟩
      · rcases hp entry.1 gnr.2 (alookup_mem hl) with hc | hc | hc | hc
        · left
          rw [hk.2]
          exact hc
        · right; left
          rw [hk.2]
          exact hc
        · right; right; left
          rw [hk.2]
          exact add_pos hc hpos
        · right; right; right
          rw [hk.1]
          exact hc
      · right; right; left
        rw [hk.2, hnew]
        show (0 : Int) < 0 + entry.2.smoothingPoolEth
        rw [zero_add]
        exact hpos

/-- C9 amended: every entry of the finished node-reward list either carries
a positive reward in some field or belongs to an Oracle DAO member — the
oDAO loop creates its members' entries unconditionally, even when the
computed member reward is zero, so a zero-reward entry is possible for
(and only for) an oDAO member. -/
theorem c9_amended_theorem {g g3 : TreeGen} {ni : List (Nat × NodeReward)}
    {ti : List (Nat × NetworkReward)} {res : GenerateTreeResult}
    (hgen : generateTree g ni ti = Except.ok res)
    (hA : allocPhase g = Except.ok g3)
    (hperm : ni.Perm g3.nodeRewards)
    (hempty : g.rewardsFile.nodeRewardsList = [])
    (hinit : g.nodeRewards = []) :
    ∀ nr, nr ∈ res.rewardsFile.nodeRewardsList →
      0 < nr.collateralRpl ∨ 0 < nr.oracleDaoRpl ∨ 0 < nr.smoothingPoolEth ∨
      g.networkState.oracleDaoMemberDetails.any
        (fun d => d.address = nr.address) = true := by
  have hJ := allocPhase_mapInv hA
    (fun nrs _ => ∀ k nr, (k, nr) ∈ nrs → 0 < nr.collateralRpl ∨
      0 < nr.oracleDaoRpl ∨ 0 < nr.smoothingPoolEth ∨
      g.networkState.oracleDaoMemberDetails.any (fun d => d.address = k) = true)
    (fun B gA nd gB hm hs hpA => collateralStep_entryPres hs hpA)
    (fun tO tT iD sT gA d gB hm hs hpA => odaoStep_entryPres hm hs hpA)
    (fun gA entry gB hs hpA => ethMapStep_entryPres hs hpA)
    (by rw [hinit]; intro k nr hm; simp at hm)
  obtain ⟨g3b, hAb, htot, hinv, hnlist, hwlist, hroot⟩ := generateTree_ok hgen
  rw [hA] at hAb
  cases hAb
  intro nr hm
  rw [hnlist] at hm
  have hm2 := (sortByKey_perm _ _).mem_iff.mp hm
  rw [(allocPhase_lists hA).1, hempty, List.nil_append] at hm2
  rcases List.mem_map.mp hm2 with ⟨p, hp2, heq⟩
  have hpg : p ∈ g3.nodeRewards := hperm.mem_iff.mp hp2
  have hJp := hJ p.1 p.2 (by rw [Prod.mk.eta]; exact hpg)
  rw [← heq]
  rcases hJp with hc | hc | hc | hc
  · exact Or.inl hc
  · exact Or.inr (Or.inl hc)
  · exact Or.inr (Or.inr (Or.inl hc))
  · exact Or.inr (Or.inr (Or.inr hc))

/-- The C9 snapshot: one zero-weight node (address 7) that is also the
sole Oracle DAO member, whose time-weighted share of the zero oDAO budget
is zero.  The member being a listed node keeps the source's per-member
node-details dereference well-defined. -/
def c9State : NetworkState :=
  { nodeDetails := [⟨7, 0⟩]
    minipoolDetails := []
    networkDetails :=
      { pendingRPLRewards := 10 ^ 18
        protocolDaoRewardsPercent := 5 * 10 ^ 17
        nodeOperatorRewardsPercent := 5 * 10 ^ 17
        trustedNodeOperatorRewardsPercent := 0
        intervalDurationSeconds := 100
        smoothingPoolBalance := 0 }
    oracleDaoMemberDetails := [⟨7, 900⟩]
    rawNodeWeight := fun _ => 0
    percentOfBorrowedEthOf := fun _ => 0 }

/-- The C9 run state. -/
def c9Gen : TreeGen :=
  newTreeGenerator 10 1 c9State ⟨0, []⟩ 1000 (fun _ => Except.ok true) (Except.ok ())

/-- The all-zero node-reward entry the C9 run creates for the member. -/
def c9ZeroNR : NodeReward := NodeReward.new 0 7

/-- The network aggregate entry of the C9 run. -/
def c9NetNR : NetworkReward := NetworkReward.new 0

/-- The C9 allocation output. -/
def c9G3 : TreeGen :=
  match allocPhase c9Gen with
  | Except.ok g => g
  | Except.error _ => c9Gen

/-- The C9 run result. -/
def c9Res : GenerateTreeResult :=
  match generateTree c9Gen [(7, c9ZeroNR)] [(0, c9NetNR)] with
  | Except.ok r => r
  | Except.error _ => default

/-- Counterexample to C9 as stated: a run that completes successfully and
whose finished node-reward list contains an entry (the oDAO member that
joined 100 seconds before a 100-second interval's snapshot of an interval
with a zero oDAO budget) with every reward field equal to zero, because the
oDAO loop creates the entry before knowing the amount — so it is not the
case that every listed entry has at least one non-zero reward field. -/
theorem c9_counterexample :
    (allocPhase c9Gen).map (fun g3 => g3.nodeRewards) = Except.ok [(7, c9ZeroNR)] ∧
    (generateTree c9Gen [(7, c9ZeroNR)] [(0, c9NetNR)]).map
      (fun res => res.rewardsFile.nodeRewardsList) = Except.ok [c9ZeroNR] ∧
    c9ZeroNR.collateralRpl = 0 ∧ c9ZeroNR.oracleDaoRpl = 0 ∧
    c9ZeroNR.smoothingPoolEth = 0 :=
  ⟨by decide, by decide, rfl, rfl, rfl⟩

/-- The head entry of the C9 run's finished list. -/
def c9HeadNR : NodeReward := c9Res.rewardsFile.nodeRewardsList.headD default

/-- Witness for the amended C9 statement on the same concrete run: the
all-zero entry is covered by the Oracle DAO membership disjunct. -/
theorem c9_amended_witness :
    c9Gen.rewardsFile.nodeRewardsList = [] ∧
    c9Gen.nodeRewards = [] ∧
    (0 < c9HeadNR.collateralRpl ∨ 0 < c9HeadNR.oracleDaoRpl ∨
      0 < c9HeadNR.smoothingPoolEth ∨
      c9Gen.networkState.oracleDaoMemberDetails.any
        (fun d => d.address = c9HeadNR.address) = true) := by
  have H := c9_amended_theorem
    (show generateTree c9Gen [(7, c9ZeroNR)] [(0, c9NetNR)] = Except.ok c9Res from rfl)
    (show allocPhase c9Gen = Except.ok c9G3 from rfl)
    (by decide) rfl rfl
  exact ⟨rfl, rfl, H c9HeadNR (by decide)⟩

/-! Claim C2: determinism of the materialized lists and the Merkle root. -/

theorem bump_keysND {g : TreeGen} {a net : Nat} {gnr : TreeGen × NodeReward}
    (hx : getOrCreateNodeReward g a net = Except.ok gnr) (nr2 : NodeReward)
    (bump : NetworkReward → NetworkReward)
    (hp : keysND g.nodeRewards ∧ keysND g.networkRewards) :
    keysND (bumpNodeReward gnr.1 a nr2 bump).nodeRewards ∧
    keysND (bumpNodeReward gnr.1 a nr2 bump).networkRewards := by
  constructor
  · rcases bump_nodeRewards hx nr2 bump with ⟨hl, hset⟩ | ⟨hl, hnew, hset⟩
    · rw [hset]
      exact keysND_aset _ _ hp.1
    · rw [hset]
      exact keysND_append_new _ hp.1 hl
  · rcases bump_networkRewards hx nr2 bump with ⟨w, hl, hset⟩ | ⟨hl, hset⟩
    · rw [hset]
      exact keysND_aset _ _ hp.2
    · rw [hset]
      exact keysND_append_new _ hp.2 hl

theorem collateralStep_keysND {B W : Int} {nw : Nat → Int} {gA : TreeGen}
    {nd : NodeDetailsGo} {gB : TreeGen}
    (hs : collateralStep B W nw gA nd = Except.ok gB)
    (hp : keysND gA.nodeRewards ∧ keysND gA.networkRewards) :
    keysND gB.nodeRewards ∧ keysND gB.networkRewards := by
  rcases collateralStep_cases hs with ⟨_, rfl⟩ | ⟨hpos, gnr, hx, rfl⟩
  · exact hp
  · exact bump_keysND hx _ _ hp

theorem odaoStep_keysND {tO tT iD sT : Int} {gA : TreeGen}
    {d : OracleDaoMemberDetails} {gB : TreeGen}
    (hs : odaoStep tO tT iD sT gA d = Except.ok gB)
    (hp : keysND gA.nodeRewards ∧ keysND gA.networkRewards) :
    keysND gB.nodeRewards ∧ keysND gB.networkRewards := by
  rcases odaoStep_cases hs with ⟨gnr, hx, rfl⟩
  exact bump_keysND hx _ _ hp

theorem ethMapStep_keysND {gA : TreeGen} {entry : Nat × NodeSmoothingDetails} {gB : TreeGen}
    (hs : ethMapStep gA entry = Except.ok gB)
    (hp : keysND gA.nodeRewards ∧ keysND gA.networkRewards) :
    keysND gB.nodeRewards ∧ keysND gB.networkRewards := by
  rcases ethMapStep_cases hs with ⟨_, rfl⟩ | ⟨hpos, gnr, hx, rfl⟩
  · exact hp
  · exact bump_keysND hx _ _ hp

/-- C2: two runs of generateTree on the same inputs produce identical
results — literally identical materialized node and network lists and the
same Merkle root — whatever iteration orders the two runs' Go map walks
produce (every run's order is some permutation of the accumulator map,
whose keys are provably distinct, and the canonical sort makes the output
independent of the permutation). -/
theorem c2_theorem (rv idx : Nat) (s : NetworkState) (rr : RollingRecord) (sbt : Int)
    (gne : Nat → Except String Bool) (shf : Except String Unit) (g3 : TreeGen)
    (ni1 ni2 : List (Nat × NodeReward)) (ti1 ti2 : List (Nat × NetworkReward))
    (hA : allocPhase (newTreeGenerator rv idx s rr sbt gne shf) = Except.ok g3)
    (hn1 : ni1.Perm g3.nodeRewards) (hn2 : ni2.Perm g3.nodeRewards)
    (ht1 : ti1.Perm g3.networkRewards) (ht2 : ti2.Perm g3.networkRewards) :
    generateTree (newTreeGenerator rv idx s rr sbt gne shf) ni1 ti1 =
      generateTree (newTreeGenerator rv idx s rr sbt gne shf) ni2 ti2 := by
  have hkey : keysND g3.nodeRewards ∧ keysND g3.networkRewards :=
    allocPhase_mapInv hA (fun nrs ws => keysND nrs ∧ keysND ws)
      (fun B gA nd gB hm hs hpA => collateralStep_keysND hs hpA)
      (fun tO tT iD sT gA d gB hm hs hpA => odaoStep_keysND hs hpA)
      (fun gA entry gB hs hpA => ethMapStep_keysND hs hpA)
      ⟨List.nodup_nil, List.nodup_nil⟩
  have hlists := allocPhase_lists hA
  have hg3n : g3.rewardsFile.nodeRewardsList = [] := by
    rw [hlists.1]
    rfl
  have hg3w : g3.rewardsFile.networkRewardsList = [] := by
    rw [hlists.2]
    rfl
  have heqN : sortByKey (fun nr => nr.address)
      (ni1.map (fun (p : Nat × NodeReward) => { p.2 with address := p.1 })) =
      sortByKey (fun nr => nr.address)
      (ni2.map (fun (p : Nat × NodeReward) => { p.2 with address := p.1 })) := by
    apply sortByKey_eq_of_perm ((hn1.trans hn2.symm).map _)
    have hm : (ni1.map (fun (p : Nat × NodeReward) => { p.2 with address := p.1 })).map
        (fun nr => nr.address) = ni1.map Prod.fst := by
      rw [List.map_map]
      rfl
    rw [hm]
    exact ((hn1.map Prod.fst).nodup_iff).mpr hkey.1
  have heqT : sortByKey (fun w => w.network)
      (ti1.map (fun (p : Nat × NetworkReward) => { p.2 with network := p.1 })) =
      sortByKey (fun w => w.network)
      (ti2.map (fun (p : Nat × NetworkReward) => { p.2 with network := p.1 })) := by
    apply sortByKey_eq_of_perm ((ht1.trans ht2.symm).map _)
    have hm : (ti1.map (fun (p : Nat × NetworkReward) => { p.2 with network := p.1 })).map
        (fun w => w.network) = ti1.map Prod.fst := by
      rw [List.map_map]
      rfl
    rw [hm]
    exact ((ht1.map Prod.fst).nodup_iff).mpr hkey.2
  unfold generateTree RewardsFile.generateMerkleTree
  rw [hA]
  dsimp only []
  rw [hg3n, hg3w]
  simp only [List.nil_append]
  rw [heqN, heqT]

/-- The C2 witness snapshot: two weighted nodes, so the node map has two
entries and admits two distinct iteration orders. -/
def c2State : NetworkState :=
  { nodeDetails := [⟨1, 0⟩, ⟨2, 0⟩]
    minipoolDetails := []
    networkDetails :=
      { pendingRPLRewards := 2 * 10 ^ 18
        protocolDaoRewardsPercent := 5 * 10 ^ 17
        nodeOperatorRewardsPercent := 5 * 10 ^ 17
        trustedNodeOperatorRewardsPercent := 0
        intervalDurationSeconds := 100
        smoothingPoolBalance := 0 }
    oracleDaoMemberDetails := []
    rawNodeWeight := fun _ => 1
    percentOfBorrowedEthOf := fun _ => 0 }

/-- The C2 witness run state. -/
def c2Gen : TreeGen :=
  newTreeGenerator 10 1 c2State ⟨0, []⟩ 1000 (fun _ => Except.ok true) (Except.ok ())

/-- The C2 witness allocation output. -/
def c2G3 : TreeGen :=
  match allocPhase c2Gen with
  | Except.ok g => g
  | Except.error _ => c2Gen

/-- One iteration order of the C2 witness node map. -/
def c2Ni1 : List (Nat × NodeReward) := c2G3.nodeRewards

/-- The opposite iteration order of the C2 witness node map. -/
def c2Ni2 : List (Nat × NodeReward) := c2G3.nodeRewards.reverse

/-- The iteration order of the C2 witness network map. -/
def c2Ti : List (Nat × NetworkReward) := c2G3.networkRewards

/-- Witness for C2 at a concrete two-node run: the two map iteration orders
genuinely differ, yet the two runs produce identical results. -/
theorem c2_witness :
    c2Ni2 ≠ c2Ni1 ∧
    generateTree c2Gen c2Ni1 c2Ti = generateTree c2Gen c2Ni2 c2Ti := by
  have H := c2_theorem 10 1 c2State ⟨0, []⟩ 1000 (fun _ => Except.ok true) (Except.ok ())
    c2G3 c2Ni1 c2Ni2 c2Ti c2Ti
    (show allocPhase c2Gen = Except.ok c2G3 from rfl)
    (by decide) (by decide) (by decide) (by decide)
  exact ⟨by decide, H⟩
